import Mathlib

/-!
# Verification of the `tempjacleaner` core

Shallow embedding of the Python package `tempjacleaner` (Japanese-text
linting/fixing for source files) and proofs about it.

Modelling conventions, used throughout:

* A Python `str` is modelled as `List Char`; Python indexes strings by
  Unicode code points, exactly matching `List Char` positions.
* The Python slice `text[s:e]` (with non-negative bounds, as used in the
  sources) clamps out-of-range bounds; it is modelled by
  `pySlice text s e = (text.take e).drop s`.
* Python regular-expression scans (`finditer`, `search`, `match`,
  `fullmatch`) are compiled, per concrete pattern, into explicit scanner
  functions over `List Char`.  Each scanner's doc comment names the regex
  it implements and how leftmost/greedy/lazy matching specialises for
  that concrete pattern.  Scanners take an explicit fuel argument (always
  called with at least the length of the remaining input, which every
  step decreases) so that they are structurally recursive and hence
  evaluable by `decide`/`rfl`.
* Module-level mutable configuration (`advanced_rules` thresholds) and
  externally probed collaborators (morphological tokenizer, LanguageTool,
  spaCy/GiNZA, rapidfuzz, the process-wide typo-rule registry) become
  explicit parameters (`AdvConfig`, `Providers`).
* Filesystem and JSON facilities used by the cache/orchestrator layer are
  modelled by explicit environment records; exceptions become `Except`.
-/

/-- Python slice `text[s:e]` for `0 ≤ s, e` (out-of-range bounds clamp). -/
def pySlice (text : List Char) (s e : Nat) : List Char :=
  (text.take e).drop s

/-- Python slice `text[s:]`. -/
def pySliceFrom (text : List Char) (s : Nat) : List Char :=
  text.drop s

theorem pySlice_eq_drop_take (text : List Char) (s e : Nat) :
    pySlice text s e = (text.drop s).take (e - s) := by
  simp [pySlice, List.drop_take]

theorem length_takeWhile_le {p : Char → Bool} (l : List Char) :
    (l.takeWhile p).length ≤ l.length := by
  induction l with
  | nil => simp [List.takeWhile]
  | cons c rest ih =>
    by_cases h : p c
    · simp [List.takeWhile, h]
      omega
    · simp [List.takeWhile, h]

/-- `l.takeWhile p` is an initial segment: `takeWhile p l = take (takeWhile p l).length l`. -/
theorem takeWhile_eq_take_length {p : Char → Bool} (l : List Char) :
    l.takeWhile p = l.take (l.takeWhile p).length := by
  induction l with
  | nil => simp
  | cons c rest ih =>
    by_cases h : p c <;> simp [List.takeWhile, h]
    exact ih

/-! ## Generic regex-scan combinator

Python's `finditer` semantics for the concrete patterns appearing in the
sources specialise as follows: at each position either the (leftmost)
match attempt fails, and scanning resumes one character later, or it
succeeds with a uniquely determined match length `m ≥ 1`, the matched
text being the next `m` characters, and scanning resumes at the match
end.  `scanWith step` captures exactly that, where `step` decides a
match attempt on the remaining suffix and returns the match length. -/
def scanWith (step : List Char → Option Nat) :
    Nat → List Char → Nat → List (Nat × Nat × List Char)
  | 0, _, _ => []
  | _, [], _ => []
  | fuel + 1, c :: rest, i =>
    match step (c :: rest) with
    | some m =>
      (i, i + m, (c :: rest).take m) ::
        scanWith step fuel ((c :: rest).drop m) (i + m)
    | none => scanWith step fuel rest (i + 1)

/-- Soundness of `scanWith` run on the suffix starting at document
offset `i`: provided every successful step consumes at least one and at
most all remaining characters, every yielded span `(s, e, b)` satisfies
`i ≤ s < e ≤ i + |cs|`, its content is the corresponding sub-list of the
suffix, and consecutive spans are separated (`end ≤ next start`). -/
theorem scanWith_sound (step : List Char → Option Nat)
    (hstep : ∀ cs m, step cs = some m → 1 ≤ m ∧ m ≤ cs.length) :
    ∀ fuel (cs : List Char) (i : Nat), cs.length ≤ fuel →
      (∀ x ∈ scanWith step fuel cs i,
        i ≤ x.1 ∧ x.1 < x.2.1 ∧ x.2.1 ≤ i + cs.length ∧
          x.2.2 = (cs.drop (x.1 - i)).take (x.2.1 - x.1)) ∧
      List.Chain' (fun x y => x.2.1 ≤ y.1) (scanWith step fuel cs i) := by
  intro fuel
  induction fuel with
  | zero => intro cs i _; simp [scanWith]
  | succ n ih =>
    intro cs i hlen
    match cs with
    | [] => simp [scanWith]
    | c :: rest =>
      rcases hm : step (c :: rest) with _ | m
      · rw [scanWith]
        simp only [hm]
        have hrec := ih rest (i + 1) (by simp at hlen; omega)
        refine ⟨fun x hx => ?_, hrec.2⟩
        have h1 := hrec.1 x hx
        refine ⟨by omega, h1.2.1, by simp; omega, ?_⟩
        rw [h1.2.2.2]
        congr 1
        rcases Nat.exists_eq_add_of_le h1.1 with ⟨k, hk⟩
        have e1 : x.1 - (i + 1) = k := by omega
        have e2 : x.1 - i = k + 1 := by omega
        rw [e1, e2, List.drop_succ_cons]
      · have hmb := hstep _ _ hm
        rw [scanWith]
        simp only [hm]
        have hrec := ih ((c :: rest).drop m) (i + m)
          (by simp [List.length_drop] at *; omega)
        constructor
        · intro x hx
          rcases List.mem_cons.mp hx with hx | hx
          · subst hx
            refine ⟨Nat.le_refl _, by simp; omega, by simp at *; omega, ?_⟩
            simp [Nat.sub_self, Nat.add_sub_cancel_left]
          · have h1 := hrec.1 x hx
            refine ⟨by omega, h1.2.1, ?_, ?_⟩
            · have := h1.2.2.1
              simp only [List.length_drop] at this
              simp only [List.length_cons] at *
              omega
            · rw [h1.2.2.2]
              congr 1
              rw [List.drop_drop]
              have e1 : m + (x.1 - (i + m)) = x.1 - i := by omega
              rw [e1]
        · rcases hk : scanWith step n ((c :: rest).drop m) (i + m) with _ | ⟨y, ys⟩
          · simp
          · refine List.chain'_cons'.mpr ⟨?_, by rw [← hk]; exact hrec.2⟩
            intro z hz
            have hzmem : z ∈ scanWith step n ((c :: rest).drop m) (i + m) :=
              List.mem_of_mem_head? (by rw [hk]; exact hz)
            have := (hrec.1 z hzmem).1
            simpa using by omega

/-- Restatement of the content clause against the original document:
if the scanner runs on the whole document (`i = 0`, `cs = text`), each
span's content is `text[start:end]`. -/
theorem scanWith_sound_doc (step : List Char → Option Nat)
    (hstep : ∀ cs m, step cs = some m → 1 ≤ m ∧ m ≤ cs.length)
    (text : List Char) :
    (∀ x ∈ scanWith step text.length text 0,
      x.1 < x.2.1 ∧ x.2.1 ≤ text.length ∧ x.2.2 = pySlice text x.1 x.2.1) ∧
    List.Chain' (fun x y => x.2.1 ≤ y.1) (scanWith step text.length text 0) := by
  have h := scanWith_sound step hstep text.length text 0 (Nat.le_refl _)
  refine ⟨fun x hx => ?_, h.2⟩
  have h1 := h.1 x hx
  refine ⟨h1.2.1, by have := h1.2.2.1; omega, ?_⟩
  rw [h1.2.2.2, pySlice_eq_drop_take]
  simp

/-! ## Character classes

Python character classes used by the sources, as decidable predicates on
`Char`.  Ranges are written with explicit code points. -/

/-- Characters of `_JP_BLOCK_RE`'s leading class (Hiragana/Katakana
U+3040-U+30FF, CJK U+3400-U+9FFF, compatibility ideographs
U+F900-U+FAFF, CJK punctuation U+3000-U+303F); japanese_extractor.py
line 16. -/
def isJpBlockChar (c : Char) : Bool :=
  (0x3040 ≤ c.toNat && c.toNat ≤ 0x30FF) ||
  (0x3400 ≤ c.toNat && c.toNat ≤ 0x9FFF) ||
  (0xF900 ≤ c.toNat && c.toNat ≤ 0xFAFF) ||
  (0x3000 ≤ c.toNat && c.toNat ≤ 0x303F)

/-- ASCII `[A-Za-z0-9]`. -/
def isAsciiAlnum (c : Char) : Bool :=
  ('A' ≤ c && c ≤ 'Z') || ('a' ≤ c && c ≤ 'z') || ('0' ≤ c && c ≤ '9')

/-- Characters of `_JP_BLOCK_RE`'s continuation class
(`[A-Za-z0-9]` plus the leading class). -/
def isJpOrAlnum (c : Char) : Bool :=
  isAsciiAlnum c || isJpBlockChar c

/-! ## `japanese_extractor.py` -/

/-- One match attempt of `_JP_BLOCK_RE = [JP]+(?:[A-Za-z0-9|JP]+)*`
(japanese_extractor.py line 16).  Greedy matching of this pattern
specialises to: the attempt succeeds iff the first character is in the
leading class, and the match then covers the maximal run of
continuation-class characters from there (the leading class is contained
in the continuation class and nothing constrains the match end). -/
def jpBlockStep : List Char → Option Nat
  | [] => none
  | c :: rest =>
    if isJpBlockChar c then some (1 + (rest.takeWhile isJpOrAlnum).length) else none

theorem jpBlockStep_bound : ∀ cs m, jpBlockStep cs = some m → 1 ≤ m ∧ m ≤ cs.length := by
  intro cs m h
  match cs with
  | [] => simp [jpBlockStep] at h
  | c :: rest =>
    simp only [jpBlockStep] at h
    by_cases hc : isJpBlockChar c
    · rw [if_pos hc] at h
      have := length_takeWhile_le (p := isJpOrAlnum) rest
      simp at h ⊢
      omega
    · rw [if_neg hc] at h; cases h

/-- `extract_japanese_blocks` (japanese_extractor.py lines 25-27):
`_JP_BLOCK_RE.finditer(text)` yielding `(start, end, content)`. -/
def extract_japanese_blocks (text : List Char) : List (Nat × Nat × List Char) :=
  scanWith jpBlockStep text.length text 0

/-- **C10.** For every input text, the spans yielded by
`extract_japanese_blocks` are pairwise disjoint and yielded in strictly
increasing order of start offset (each span ends no later than the next
begins and every span is nonempty), and every yielded triple
`(start, end, content)` satisfies `start < end` and
`content = text[start:end]`. -/
theorem extract_japanese_blocks_spans_sound (text : List Char) :
    (∀ x ∈ extract_japanese_blocks text,
      x.1 < x.2.1 ∧ x.2.2 = pySlice text x.1 x.2.1) ∧
    List.Chain' (fun x y => x.2.1 ≤ y.1) (extract_japanese_blocks text) := by
  have h := scanWith_sound_doc jpBlockStep jpBlockStep_bound text
  exact ⟨fun x hx => ⟨(h.1 x hx).1, (h.1 x hx).2.2⟩, h.2⟩

/-- Witness for C10: instantiation on `x="あ い" #外`, whose three spans
are checked concretely, and the first span satisfies the span
invariants via the theorem. -/
theorem extract_japanese_blocks_spans_sound_witness :
    (3, 4, "あ".toList) ∈ extract_japanese_blocks ("x=\"あ い\" #外".toList) ∧
      (3 < 4 ∧ "あ".toList = pySlice ("x=\"あ い\" #外".toList) 3 4) :=
  ⟨by decide,
    (extract_japanese_blocks_spans_sound ("x=\"あ い\" #外".toList)).1
      (3, 4, "あ".toList) (by decide)⟩

/-! ## String literals (`japanese_extractor.py` lines 19-23) -/

/-- Opening characters of `_STRING_RE = (["'])(?:(?=\\)\\.|(?!\1).)*?\1`. -/
def isQuoteChar (c : Char) : Bool :=
  c = '"' || c = '\''

/-- Backtracking matcher for the lazy interior
`(?:(?=\\)\\.|(?!\1).)*?\1` of `_STRING_RE`, started just after the
opening quote `q` at relative position `pos`; returns the relative
position just after the closing quote of the leftmost-preferred match.

Faithful to Python's backtracking order: at each point the lazy `*?`
first tries to close with `\1`; otherwise the escape branch
`(?=\\)\\.` (backslash plus any non-newline character) is tried, and on
its failure anywhere downstream the single-character branch `(?!\1).`
re-consumes the backslash as a plain character; `.` never matches a
newline, and a newline therefore fails the whole attempt. -/
def litEnd : Nat → Char → List Char → Nat → Option Nat
  | 0, _, _, _ => none
  | _, _, [], _ => none
  | fuel + 1, q, [c], pos =>
    if c = q then some (pos + 1)
    else if c = '\\' then litEnd fuel q [] (pos + 1)
    else if c = '\n' then none
    else litEnd fuel q [] (pos + 1)
  | fuel + 1, q, c :: d :: rest2, pos =>
    if c = q then some (pos + 1)
    else if c = '\\' then
      (if d = '\n' then none else litEnd fuel q rest2 (pos + 2)).orElse
        (fun _ => litEnd fuel q (d :: rest2) (pos + 1))
    else if c = '\n' then none
    else litEnd fuel q (d :: rest2) (pos + 1)

theorem litEnd_bound :
    ∀ fuel q (cs : List Char) pos e, litEnd fuel q cs pos = some e →
      pos < e ∧ e ≤ pos + cs.length := by
  intro fuel
  induction fuel with
  | zero => intro q cs pos e h; simp [litEnd] at h
  | succ n ih =>
    intro q cs pos e h
    rcases cs with _ | ⟨c, cs'⟩
    · simp [litEnd] at h
    rcases cs' with _ | ⟨d, rest2⟩
    · rw [litEnd] at h
      by_cases hq : c = q
      · rw [if_pos hq, Option.some_inj] at h
        subst h; simp
      · rw [if_neg hq] at h
        by_cases hb : c = '\\'
        · rw [if_pos hb] at h
          have := ih q [] (pos + 1) e h
          simp only [List.length_nil, Nat.add_zero] at this
          simp only [List.length_cons, List.length_nil]
          omega
        · rw [if_neg hb] at h
          by_cases hnl : c = '\n'
          · rw [if_pos hnl] at h; cases h
          · rw [if_neg hnl] at h
            have := ih q [] (pos + 1) e h
            simp only [List.length_nil, Nat.add_zero] at this
            simp only [List.length_cons, List.length_nil]
            omega
    · rw [litEnd] at h
      by_cases hq : c = q
      · rw [if_pos hq, Option.some_inj] at h
        subst h; simp
      · rw [if_neg hq] at h
        by_cases hb : c = '\\'
        · rw [if_pos hb] at h
          rcases ho : (if d = '\n' then none else litEnd n q rest2 (pos + 2)) with _ | e2
          · rw [ho] at h
            simp only [Option.orElse] at h
            have := ih q (d :: rest2) (pos + 1) e h
            simp at this ⊢
            omega
          · rw [ho] at h
            simp only [Option.orElse] at h
            rw [Option.some_inj] at h
            subst h
            by_cases hd : d = '\n'
            · rw [if_pos hd] at ho; cases ho
            · rw [if_neg hd] at ho
              have := ih q rest2 (pos + 2) e2 ho
              simp at this ⊢
              omega
        · rw [if_neg hb] at h
          by_cases hnl : c = '\n'
          · rw [if_pos hnl] at h; cases h
          · rw [if_neg hnl] at h
            have := ih q (d :: rest2) (pos + 1) e h
            simp at this ⊢
            omega

/-- One match attempt of `_STRING_RE` at the current position: the first
character must be a quote, and the interior matcher determines the
(relative) match end. -/
def stringLitStep : List Char → Option Nat
  | [] => none
  | c :: rest =>
    if isQuoteChar c then litEnd rest.length c rest 1 else none

theorem stringLitStep_bound :
    ∀ cs m, stringLitStep cs = some m → 1 ≤ m ∧ m ≤ cs.length := by
  intro cs m h
  match cs with
  | [] => simp [stringLitStep] at h
  | c :: rest =>
    simp only [stringLitStep] at h
    by_cases hq : isQuoteChar c
    · rw [if_pos hq] at h
      have := litEnd_bound rest.length c rest 1 m h
      simp
      omega
    · rw [if_neg hq] at h; cases h

/-- `extract_string_literals` (japanese_extractor.py lines 21-23):
`_STRING_RE.finditer(code)` yielding `(start, end, literal)`. -/
def extract_string_literals (code : List Char) : List (Nat × Nat × List Char) :=
  scanWith stringLitStep code.length code 0

/-- `extract_japanese_from_code` (japanese_extractor.py lines 29-37):
for each string-literal candidate, strip the two quotes
(`literal[1:-1]`), re-run block extraction on the interior, and
translate the inner offsets by `literal_start + 1`. -/
def extract_japanese_from_code (code : List Char) : List (Nat × Nat × List Char) :=
  (extract_string_literals code).flatMap fun st =>
    let inner := (st.2.2.drop 1).dropLast
    (extract_japanese_blocks inner).map fun jb =>
      (st.1 + 1 + jb.1, st.1 + 1 + jb.2.1, jb.2.2)

/-! ## Comments (`comments.py`) -/

/-- One match attempt of `_LINE_HASH = #[^\n]*` (comments.py line 13):
succeeds at a `#`, covering the rest of the physical line. -/
def hashCommentStep : List Char → Option Nat
  | [] => none
  | c :: rest =>
    if c = '#' then some (1 + (rest.takeWhile (· ≠ '\n')).length) else none

theorem hashCommentStep_bound :
    ∀ cs m, hashCommentStep cs = some m → 1 ≤ m ∧ m ≤ cs.length := by
  intro cs m h
  match cs with
  | [] => simp [hashCommentStep] at h
  | c :: rest =>
    simp only [hashCommentStep] at h
    by_cases hc : c = '#'
    · rw [if_pos hc, Option.some_inj] at h
      subst h
      have := length_takeWhile_le (p := (· ≠ '\n')) rest
      refine ⟨by omega, ?_⟩
      simp only [List.length_cons]
      omega
    · rw [if_neg hc] at h; cases h

/-- One match attempt of `_LINE_SLASH = //[^\n]*` (comments.py line 14). -/
def slashCommentStep : List Char → Option Nat
  | c :: d :: rest =>
    if c = '/' && d = '/' then some (2 + (rest.takeWhile (· ≠ '\n')).length)
    else none
  | _ => none

theorem slashCommentStep_bound :
    ∀ cs m, slashCommentStep cs = some m → 1 ≤ m ∧ m ≤ cs.length := by
  intro cs m h
  match cs with
  | [] => simp [slashCommentStep] at h
  | [c] => simp [slashCommentStep] at h
  | c :: d :: rest =>
    simp only [slashCommentStep] at h
    by_cases hc : c = '/' && d = '/'
    · rw [if_pos hc, Option.some_inj] at h
      subst h
      have := length_takeWhile_le (p := (· ≠ '\n')) rest
      refine ⟨by omega, ?_⟩
      simp only [List.length_cons]
      omega
    · rw [if_neg hc] at h; cases h

/-- Relative index of the first occurrence of `*/` in a list. -/
def findStarSlash : List Char → Option Nat
  | [] => none
  | [_] => none
  | c :: d :: rest =>
    if c = '*' && d = '/' then some 0
    else (findStarSlash (d :: rest)).map (· + 1)

theorem findStarSlash_bound :
    ∀ (cs : List Char) k, findStarSlash cs = some k → k + 2 ≤ cs.length := by
  intro cs
  induction cs with
  | nil => intro k h; simp [findStarSlash] at h
  | cons c tail ih =>
    intro k h
    rcases tail with _ | ⟨d, rest⟩
    · simp [findStarSlash] at h
    · rw [findStarSlash] at h
      by_cases hc : c = '*' && d = '/'
      · rw [if_pos hc, Option.some_inj] at h
        subst h; simp
      · rw [if_neg hc] at h
        simp only [Option.map_eq_some'] at h
        rcases h with ⟨k2, hk2, rfl⟩
        have := ih k2 hk2
        simp at this ⊢
        omega

/-- One match attempt of `_BLOCK = /\*.*?\*/` with `DOTALL`
(comments.py line 15): succeeds at `/*`, the lazy `.*?` making the
match end at the first following `*/`. -/
def blockCommentStep : List Char → Option Nat
  | c :: d :: rest =>
    if c = '/' && d = '*' then (findStarSlash rest).map (fun k => 2 + k + 2)
    else none
  | _ => none

theorem blockCommentStep_bound :
    ∀ cs m, blockCommentStep cs = some m → 1 ≤ m ∧ m ≤ cs.length := by
  intro cs m h
  match cs with
  | [] => simp [blockCommentStep] at h
  | [c] => simp [blockCommentStep] at h
  | c :: d :: rest =>
    simp only [blockCommentStep] at h
    by_cases hc : c = '/' && d = '*'
    · rw [if_pos hc] at h
      simp only [Option.map_eq_some'] at h
      rcases h with ⟨k, hk, rfl⟩
      have := findStarSlash_bound rest k hk
      simp
      omega
    · rw [if_neg hc] at h; cases h

/-- `extract_comments` (comments.py lines 17-23): all hash-comment
matches, then all double-slash matches, then all block-comment matches,
in the source's yield order. -/
def extract_comments (text : List Char) : List (Nat × Nat × List Char) :=
  scanWith hashCommentStep text.length text 0 ++
  scanWith slashCommentStep text.length text 0 ++
  scanWith blockCommentStep text.length text 0

/-- Every comment span's content is the document slice at its offsets. -/
theorem extract_comments_content (text : List Char) :
    ∀ x ∈ extract_comments text,
      x.1 < x.2.1 ∧ x.2.1 ≤ text.length ∧ x.2.2 = pySlice text x.1 x.2.1 := by
  intro x hx
  rcases List.mem_append.mp hx with hx' | hx'
  · rcases List.mem_append.mp hx' with hx'' | hx''
    · exact (scanWith_sound_doc hashCommentStep hashCommentStep_bound text).1 x hx''
    · exact (scanWith_sound_doc slashCommentStep slashCommentStep_bound text).1 x hx''
  · exact (scanWith_sound_doc blockCommentStep blockCommentStep_bound text).1 x hx'

/-! ## Span gathering (`checker.py` lines 52-60) -/

theorem pySlice_length_le (text : List Char) (a b : Nat) :
    (pySlice text a b).length ≤ b - a := by
  rw [pySlice_eq_drop_take]
  simp only [List.length_take, List.length_drop]
  omega

/-- Composition of Python slices: re-slicing a slice shifts offsets by
addition. -/
theorem pySlice_pySlice (text : List Char) (a b js je : Nat)
    (h : a + je ≤ b) :
    pySlice (pySlice text a b) js je = pySlice text (a + js) (a + je) := by
  unfold pySlice
  rw [List.drop_take, List.drop_drop, List.drop_take, List.take_take, List.drop_take]
  rw [min_eq_left (by omega)]
  congr 1
  omega

/-- Stripping the quotes of a string literal (`literal[1:-1]`) viewed as
a document slice. -/
theorem literal_inner_slice (text : List Char) (s e : Nat)
    (hse : s < e) (hlen : e ≤ text.length) :
    ((pySlice text s e).drop 1).dropLast = pySlice text (s + 1) (e - 1) := by
  unfold pySlice
  rw [List.drop_drop, List.dropLast_eq_take]
  rw [List.drop_take, List.drop_take]
  rw [List.take_take]
  simp only [List.length_take, List.length_drop]
  rw [min_eq_left (by omega)]
  congr 1
  omega

theorem extract_japanese_blocks_content (text : List Char) :
    ∀ x ∈ extract_japanese_blocks text,
      x.1 < x.2.1 ∧ x.2.1 ≤ text.length ∧ x.2.2 = pySlice text x.1 x.2.1 :=
  (scanWith_sound_doc jpBlockStep jpBlockStep_bound text).1

/-- Japanese blocks nested inside string literals keep document-level
offsets: the shift by `literal_start + 1` composes the slices. -/
theorem extract_japanese_from_code_content (code : List Char) :
    ∀ x ∈ extract_japanese_from_code code,
      x.1 < x.2.1 ∧ x.2.1 ≤ code.length ∧ x.2.2 = pySlice code x.1 x.2.1 := by
  intro x hx
  rw [extract_japanese_from_code, List.mem_flatMap] at hx
  rcases hx with ⟨st, hst, hmem⟩
  rcases List.mem_map.mp hmem with ⟨jb, hjb, hxeq⟩
  have hlit := (scanWith_sound_doc stringLitStep stringLitStep_bound code).1 st hst
  have hinner : (st.2.2.drop 1).dropLast = pySlice code (st.1 + 1) (st.2.1 - 1) := by
    rw [hlit.2.2]
    exact literal_inner_slice code st.1 st.2.1 hlit.1 hlit.2.1
  rw [hinner] at hjb
  have hjbf := (scanWith_sound_doc jpBlockStep jpBlockStep_bound
    (pySlice code (st.1 + 1) (st.2.1 - 1))).1 jb hjb
  have hinlen : (pySlice code (st.1 + 1) (st.2.1 - 1)).length
      ≤ (st.2.1 - 1) - (st.1 + 1) := pySlice_length_le _ _ _
  have hcomp : pySlice (pySlice code (st.1 + 1) (st.2.1 - 1)) jb.1 jb.2.1
      = pySlice code (st.1 + 1 + jb.1) (st.1 + 1 + jb.2.1) := by
    apply pySlice_pySlice
    have h1 := hjbf.1
    have h2 := hjbf.2.1
    omega
  subst hxeq
  refine ⟨by simp; omega, ?_, ?_⟩
  · have h1 := hjbf.1
    have h2 := hjbf.2.1
    have h3 := hlit.2.1
    simp
    omega
  · simp only
    rw [hjbf.2.2, hcomp]

/-- `_gather_spans` (checker.py lines 52-60): spans of the main
extractor (code-string extraction or plain block extraction), followed,
when comments are included, by the Japanese blocks of every comment
with offsets shifted by the comment start. -/
def gather_spans (text : List Char) (from_code include_comments : Bool) :
    List (Nat × Nat × List Char) :=
  (if from_code then extract_japanese_from_code text
   else extract_japanese_blocks text) ++
  (if include_comments then
    (extract_comments text).flatMap fun cm =>
      (extract_japanese_blocks cm.2.2).map fun jb =>
        (cm.1 + jb.1, cm.1 + jb.2.1, jb.2.2)
   else [])

/-- Every gathered span, including those nested in string literals and
comments, carries document-level offsets: its content is
`text[start:end]`. -/
theorem gather_spans_content (text : List Char) (fc ic : Bool) :
    ∀ x ∈ gather_spans text fc ic,
      x.1 < x.2.1 ∧ x.2.1 ≤ text.length ∧ x.2.2 = pySlice text x.1 x.2.1 := by
  intro x hx
  rw [gather_spans, List.mem_append] at hx
  rcases hx with hx | hx
  · by_cases hfc : fc
    · rw [if_pos hfc] at hx
      exact extract_japanese_from_code_content text x hx
    · rw [if_neg hfc] at hx
      exact extract_japanese_blocks_content text x hx
  · by_cases hic : ic
    · rw [if_pos hic, List.mem_flatMap] at hx
      rcases hx with ⟨cm, hcm, hmem⟩
      rcases List.mem_map.mp hmem with ⟨jb, hjb, hxeq⟩
      have hcmf := extract_comments_content text cm hcm
      rw [hcmf.2.2] at hjb
      have hjbf := (scanWith_sound_doc jpBlockStep jpBlockStep_bound
        (pySlice text cm.1 cm.2.1)).1 jb hjb
      have hinlen : (pySlice text cm.1 cm.2.1).length ≤ cm.2.1 - cm.1 :=
        pySlice_length_le _ _ _
      have hcomp : pySlice (pySlice text cm.1 cm.2.1) jb.1 jb.2.1
          = pySlice text (cm.1 + jb.1) (cm.1 + jb.2.1) := by
        apply pySlice_pySlice
        have h1 := hjbf.1
        have h2 := hjbf.2.1
        omega
      subst hxeq
      refine ⟨by simp; omega, ?_, ?_⟩
      · have h1 := hjbf.1
        have h2 := hjbf.2.1
        have h3 := hcmf.2.1
        simp
        omega
      · simp only
        rw [hjbf.2.2, hcomp]
    · rw [if_neg hic] at hx
      simp at hx

/-! ## Python string helpers -/

/-- Python `str` whitespace, as used by `str.strip()` and by `\s` in
`str` regex patterns (ASCII whitespace, the C1 separators, NEL, NBSP,
Ogham space, the U+2000 block, line/paragraph separators, narrow/medium
spaces, and the ideographic space). -/
def pyIsSpace (c : Char) : Bool :=
  (9 ≤ c.toNat && c.toNat ≤ 13) ||
  (28 ≤ c.toNat && c.toNat ≤ 31) ||
  c.toNat = 32 || c.toNat = 0x85 || c.toNat = 0xA0 || c.toNat = 0x1680 ||
  (0x2000 ≤ c.toNat && c.toNat ≤ 0x200A) ||
  c.toNat = 0x2028 || c.toNat = 0x2029 || c.toNat = 0x202F ||
  c.toNat = 0x205F || c.toNat = 0x3000

/-- Line boundaries recognised by Python `str.splitlines` (besides the
combined `\r\n`). -/
def isLineBoundary (c : Char) : Bool :=
  c = '\n' || c = '\r' || c.toNat = 11 || c.toNat = 12 ||
  c.toNat = 28 || c.toNat = 29 || c.toNat = 30 ||
  c.toNat = 0x85 || c.toNat = 0x2028 || c.toNat = 0x2029

/-- Python `str.splitlines(keepends=True)`. -/
def pySplitlinesKeepAux : List Char → List Char → List (List Char)
  | [], acc => if acc.isEmpty then [] else [acc]
  | '\r' :: '\n' :: rest, acc => (acc ++ ['\r', '\n']) :: pySplitlinesKeepAux rest []
  | c :: rest, acc =>
    if isLineBoundary c then (acc ++ [c]) :: pySplitlinesKeepAux rest []
    else pySplitlinesKeepAux rest (acc ++ [c])

def pySplitlinesKeep (text : List Char) : List (List Char) :=
  pySplitlinesKeepAux text []

/-- Python `str.splitlines()` (boundaries stripped). -/
def pySplitlinesAux : List Char → List Char → List (List Char)
  | [], acc => if acc.isEmpty then [] else [acc]
  | '\r' :: '\n' :: rest, acc => acc :: pySplitlinesAux rest []
  | c :: rest, acc =>
    if isLineBoundary c then acc :: pySplitlinesAux rest []
    else pySplitlinesAux rest (acc ++ [c])

def pySplitlines (text : List Char) : List (List Char) :=
  pySplitlinesAux text []

/-- Python `str.lstrip()`. -/
def pyLstrip (l : List Char) : List Char := l.dropWhile pyIsSpace

/-- Python `str.rstrip()`. -/
def pyRstrip (l : List Char) : List Char := (l.reverse.dropWhile pyIsSpace).reverse

/-- Python `str.strip()`. -/
def pyStrip (l : List Char) : List Char := pyRstrip (pyLstrip l)

/-- Python substring containment `sub in s`. -/
def containsSub (sub : List Char) : List Char → Bool
  | [] => sub.isEmpty
  | c :: rest => sub.isPrefixOf (c :: rest) || containsSub sub rest

/-- Python `s.count(sub)` for nonempty `sub`: non-overlapping
occurrences scanned left to right (for empty `sub` Python returns
`len(s) + 1`). -/
def pyCountSubAux (sub : List Char) : Nat → List Char → Nat
  | 0, _ => 0
  | _, [] => 0
  | fuel + 1, c :: rest =>
    if sub.isPrefixOf (c :: rest) then
      1 + pyCountSubAux sub fuel ((c :: rest).drop sub.length)
    else pyCountSubAux sub fuel rest

def pyCountSub (sub s : List Char) : Nat :=
  if sub.isEmpty then s.length + 1 else pyCountSubAux sub s.length s

/-- Python `s.find(sub)` (first occurrence index, or failure). -/
def pyFindAux (sub : List Char) : List Char → Nat → Option Nat
  | [], i => if sub.isEmpty then some i else none
  | c :: rest, i =>
    if sub.isPrefixOf (c :: rest) then some i else pyFindAux sub rest (i + 1)

/-! ## Rule hits and configuration (`advanced_rules.py`) -/

/-- One raw rule hit, the dictionary shape yielded by the rule modules
(`{start, end, match, message, suggestion, severity, rule_id}`).  `stop`
models the Python key `end` (a Lean keyword), `hmatch` the key `match`. -/
structure Hit where
  start : Nat
  stop : Nat
  hmatch : List Char
  message : String
  suggestion : Option (List Char)
  severity : String
  rule_id : Option String
deriving DecidableEq, Repr

/-- The module-level configuration globals of `advanced_rules.py`
(lines 44-51), made explicit.  Field names and defaults follow the
source; `configure_advanced` only ever installs positive thresholds. -/
structure AdvConfig where
  EMPH_THRESHOLD : Nat := 2
  LONG_SENTENCE_LIMIT : Nat := 100
  STYLE_MIX_THRESHOLD : Nat := 2
  KATAKANA_ALLOW : List (List Char) := []
  KATAKANA_DENY : List (List Char) := []
  SENTENCE_FINAL_PUNCT_SEVERITY : String := "INFO"
  END_PARTICLE_POLICY : Nat := 0

def defaultAdvConfig : AdvConfig := {}

/-- Step function of `finditer` for `re.escape(lit)` (a literal string):
a match attempt succeeds exactly when the literal is a prefix of the
rest of the text. -/
def litStepOf (lit : List Char) (cs : List Char) : Option Nat :=
  if lit.isPrefixOf cs then some lit.length else none

/-- Step function of `finditer` for an ordered alternation of literal
strings (`re` tries alternatives left to right). -/
def altStepOf (alts : List (List Char)) (cs : List Char) : Option Nat :=
  match alts.find? (fun a => a.isPrefixOf cs) with
  | some a => some a.length
  | none => none

/-- `_RANUKI_SPECIAL` (advanced_rules.py lines 12-20). -/
def _RANUKI_SPECIAL : List (List Char × List Char) :=
  [("見れる".toList, "見られる".toList),
   ("来れる".toList, "来られる".toList),
   ("出れる".toList, "出られる".toList),
   ("食べれる".toList, "食べられる".toList),
   ("寝れる".toList, "寝られる".toList),
   ("起きれる".toList, "起きられる".toList),
   ("着れる".toList, "着られる".toList)]

/-- Curated ら抜き section of `run_advanced` (lines 89-100): one
`finditer` pass per curated pair, each occurrence yielding a WARN hit
with the curated correction. -/
def advRanukiSpecial (text : List Char) : List Hit :=
  _RANUKI_SPECIAL.flatMap fun ws =>
    (scanWith (litStepOf ws.1) text.length text 0).map fun m =>
      { start := m.1, stop := m.2.1, hmatch := ws.1,
        message := "ら抜き表現の可能性", suggestion := some ws.2,
        severity := "WARN", rule_id := some "ADV_RANUKI" }

/-! ### Markdown masking (`_masked_ranges_md`, lines 104-122) -/

def isFencePrefix (cs : List Char) : Bool :=
  ("```".toList).isPrefixOf cs || ("~~~".toList).isPrefixOf cs

/-- Start offsets of the matches of `^\s*(```|~~~).*$` under `re.M`:
at each line start (`^` matches only at offset 0 or just after a
`\n`), greedy `\s*` skips the maximal whitespace run (which may span
lines), and the attempt succeeds iff a fence marker follows, the match
then extending to the end of that physical line. -/
def fenceStartsAux : Nat → List Char → Nat → Bool → List Nat
  | 0, _, _, _ => []
  | _, [], _, _ => []
  | fuel + 1, c :: rest, i, bol =>
    if bol then
      let w := (c :: rest).takeWhile pyIsSpace
      if isFencePrefix ((c :: rest).drop w.length) then
        let lineRest := ((c :: rest).drop w.length).takeWhile (· ≠ '\n')
        i :: fenceStartsAux fuel ((c :: rest).drop (w.length + lineRest.length))
              (i + w.length + lineRest.length) false
      else fenceStartsAux fuel rest (i + 1) (c = '\n')
    else fenceStartsAux fuel rest (i + 1) (c = '\n')

/-- Pair up fence indices `(idxs[0], idxs[1]), (idxs[2], idxs[3]), …`,
dropping a trailing unpaired index (lines 109-111). -/
def pairUp : List Nat → List (Nat × Nat)
  | a :: b :: rest => (a, b) :: pairUp rest
  | _ => []

/-- Step function of `` `[^`\n]+` `` (inline code, line 113): a
back-tick, at least one character that is neither back-tick nor
newline, then the closing back-tick. -/
def inlineCodeStep : List Char → Option Nat
  | [] => none
  | c :: rest =>
    if c = '`' then
      let r := rest.takeWhile (fun ch => ch ≠ '`' && ch ≠ '\n')
      if 1 ≤ r.length && (rest.drop r.length).head? = some '`' then
        some (1 + r.length + 1)
      else none
    else none

def maskedRangesMd (text : List Char) : List (Nat × Nat) :=
  pairUp (fenceStartsAux text.length text 0 true) ++
    (scanWith inlineCodeStep text.length text 0).map fun m => (m.1, m.2.1)

def inMasked (ranges : List (Nat × Nat)) (pos : Nat) : Bool :=
  ranges.any fun r => r.1 ≤ pos && pos < r.2

/-! ### Heuristic ら抜き (lines 102-146) -/

/-- The class `[぀-ヿ一-鿥]` of `_RA_NUKI_RE`
(Hiragana/Katakana U+3040-U+30FF and CJK U+4E00-U+9FFF). -/
def ranukiClass (c : Char) : Bool :=
  (0x3040 ≤ c.toNat && c.toNat ≤ 0x30FF) ||
  (0x4E00 ≤ c.toNat && c.toNat ≤ 0x9FFF)

def _E_ROW : List Char :=
  "えけげせぜてでねへべぺめれエケゲセゼテデネヘベペメレ".toList

/-- Lazy scan for `([class]+?)れる` after the first (class) character
has been consumed: at each position the lazy group first tries to stop
(requiring `れる` next), otherwise extends by one class character.
Returns the group length. -/
def ranukiScanFrom : List Char → Nat → Option Nat
  | a :: b :: rest, k =>
    if a = 'れ' && b = 'る' then some k
    else if ranukiClass a then ranukiScanFrom (b :: rest) (k + 1)
    else none
  | _, _ => none

/-- Step function of `_RA_NUKI_RE = ([class]+?)れる`: the first
character must be in the class, then the lazy scan finds the shortest
group such that `れる` follows. -/
def ranukiStep : List Char → Option Nat
  | [] => none
  | c :: rest =>
    if ranukiClass c then (ranukiScanFrom rest 1).map (· + 2) else none

/-- Heuristic ら抜き section (lines 124-146): for each regex match,
keep it only when the group's last character is an e-row kana and the
match does not start inside a masked Markdown region; the suggestion is
the group followed by `られる`. -/
def advRanukiHeuristic (text : List Char) (masked : List (Nat × Nat)) : List Hit :=
  (scanWith ranukiStep text.length text 0).filterMap fun m =>
    let headGroup := m.2.2.take (m.2.2.length - 2)
    if headGroup.isEmpty then none
    else
      match headGroup.getLast? with
      | none => none
      | some prev =>
        if _E_ROW.contains prev then
          if inMasked masked m.1 then none
          else some
            { start := m.1, stop := m.2.1, hmatch := m.2.2,
              message := "ら抜き表現の可能性",
              suggestion := some (headGroup ++ "られる".toList),
              severity := "INFO", rule_id := some "ADV_RANUKI" }
        else none

/-- `_TAUTOLOGIES` (lines 22-32): `(pattern, message, suggestion)`;
each pattern is a plain literal. -/
def _TAUTOLOGIES : List (List Char × String × List Char) :=
  [("一番最初".toList, "重言の可能性: '一番最初'", "最初".toList),
   ("一番最後".toList, "重言の可能性: '一番最後'", "最後".toList),
   ("過半数以上".toList, "重言の可能性: '過半数以上'", "過半数".toList),
   ("まず最初に".toList, "重言の可能性: 'まず最初に'", "最初に".toList),
   ("事前に予め".toList, "重言の可能性: '事前に予め'", "事前に".toList),
   ("違和感を感じる".toList, "重言の可能性: '違和感を感じる'", "違和感がある".toList),
   ("必須条件".toList, "重言の可能性: '必須条件'", "必須".toList),
   ("過半数の半分".toList, "重言の可能性: '過半数の半分'", "過半数".toList),
   ("新規に新たな".toList, "重言の可能性: '新規に新たな'", "新たに".toList)]

/-- Tautology section (lines 148-162): per-pattern `finditer`, skipping
masked matches. -/
def advTautology (text : List Char) (masked : List (Nat × Nat)) : List Hit :=
  _TAUTOLOGIES.flatMap fun t =>
    (scanWith (litStepOf t.1) text.length text 0).filterMap fun m =>
      if inMasked masked m.1 then none
      else some
        { start := m.1, stop := m.2.1, hmatch := m.2.2,
          message := t.2.1, suggestion := some t.2.2,
          severity := "WARN", rule_id := some "ADV_TAUTOLOGY" }

def _DOUBLE_PARTICLES : List (List Char) :=
  ["のの".toList, "がが".toList, "にに".toList, "をを".toList,
   "へへ".toList, "とと".toList, "でで".toList]

/-- Doubled-particle section (lines 164-175): per-particle `finditer`. -/
def advDoubleParticle (text : List Char) : List Hit :=
  _DOUBLE_PARTICLES.flatMap fun p =>
    (scanWith (litStepOf p) text.length text 0).map fun m =>
      { start := m.1, stop := m.2.1, hmatch := m.2.2,
        message := "連続する助詞の可能性", suggestion := none,
        severity := "WARN", rule_id := some "ADV_DOUBLE_PARTICLE" }

/-- `_EMPHATIC_ADVS` (line 41); the compiled `_EMPHATIC_ADV_RE` is the
ordered alternation of these literals (which are pairwise
non-prefix-ambiguous at any position). -/
def _EMPHATIC_ADVS : List (List Char) :=
  ["非常に".toList, "とても".toList, "とっても".toList, "すごく".toList,
   "かなり".toList, "大変".toList, "めちゃくちゃ".toList]

def emphaticMatches (text : List Char) : List (Nat × Nat × List Char) :=
  scanWith (altStepOf _EMPHATIC_ADVS) text.length text 0

/-- Adverb-overuse section (lines 177-190): count all matches of the
emphatic-adverb alternation; at or above the threshold, emit exactly
one aggregate WARN hit anchored at the first match.  (When the
threshold is positive the guard implies the match list is nonempty;
a zero threshold with no matches would raise `IndexError` in Python
and is unreachable through `configure_advanced`.) -/
def advEmphatic (cfg : AdvConfig) (text : List Char) : List Hit :=
  let adv_hits := emphaticMatches text
  if cfg.EMPH_THRESHOLD ≤ adv_hits.length then
    match adv_hits with
    | [] => []
    | m0 :: _ =>
      [{ start := m0.1, stop := m0.2.1, hmatch := m0.2.2,
         message := "強調副詞（非常に/とても/すごく など）の多用",
         suggestion := none, severity := "WARN",
         rule_id := some "ADV_EMPHATIC_ADVERB_MANY" }]
  else []

def _DOUBLE_ADV_PAIRS : List (List Char × List Char) :=
  [("かなり".toList, "とても".toList), ("かなり".toList, "すごく".toList),
   ("とても".toList, "すごく".toList), ("非常に".toList, "とても".toList),
   ("非常に".toList, "すごく".toList)]

/-- Step function of `a\s*b` for literals `a`, `b` whose first character
is not whitespace: `a`, then the maximal whitespace run, then `b`. -/
def pairWsStepOf (a b : List Char) (cs : List Char) : Option Nat :=
  if a.isPrefixOf cs then
    let afterA := cs.drop a.length
    let w := afterA.takeWhile pyIsSpace
    if b.isPrefixOf (afterA.drop w.length) then
      some (a.length + w.length + b.length)
    else none
  else none

/-- Doubled-adverb section (lines 192-203): per-pair `finditer`. -/
def advDoubleAdverb (text : List Char) : List Hit :=
  _DOUBLE_ADV_PAIRS.flatMap fun p =>
    (scanWith (pairWsStepOf p.1 p.2) text.length text 0).map fun m =>
      { start := m.1, stop := m.2.1, hmatch := m.2.2,
        message := "二重副詞の可能性", suggestion := none,
        severity := "WARN", rule_id := some "ADV_DOUBLE_ADVERB" }

def _COLLOQUIAL_ALTS : List (List Char) :=
  ["とかさ".toList, "とか".toList, "っぽさ".toList, "っぽい".toList,
   "みたいな".toList, "みたい".toList]

/-- Colloquialism section (lines 205-215): single ordered-alternation
`finditer`. -/
def advColloquial (text : List Char) : List Hit :=
  (scanWith (altStepOf _COLLOQUIAL_ALTS) text.length text 0).map fun m =>
    { start := m.1, stop := m.2.1, hmatch := m.2.2,
      message := "口語的な表現（文体の統一を検討）", suggestion := none,
      severity := "INFO", rule_id := some "ADV_COLLOQUIAL" }

/-! ### Punctuation and length sections of `run_advanced` -/

def isFullStopPunct (c : Char) : Bool := c = '。' || c = '．'

def isCommaPunct (c : Char) : Bool := c = '，' || c = '、'

/-- Index of the last element satisfying `p` (for the greedy `.*` back-off). -/
def lastIdxWhere (p : Char → Bool) : List Char → Nat → Option Nat → Option Nat
  | [], _, best => best
  | c :: rest, i, best =>
    lastIdxWhere p rest (i + 1) (if p c then some i else best)

/-- `re.search` of `_MIXED_FULL_HALF_PUNCT_RE = [。．].*[，、]|[，、].*[。．]`
(line 63): leftmost start where one branch matches, `.` not crossing a
newline, the greedy `.*` stretching to the last suitable punctuation
character on the same line; the first branch is tried first, but at any
one position at most one branch can apply (the leading classes are
disjoint). -/
def punctMixedSearchAux : Nat → List Char → Nat → Option (Nat × Nat)
  | 0, _, _ => none
  | _, [], _ => none
  | fuel + 1, c :: rest, i =>
    let lineRest := rest.takeWhile (· ≠ '\n')
    if isFullStopPunct c then
      match lastIdxWhere isCommaPunct lineRest 0 none with
      | some j => some (i, i + 1 + j + 1)
      | none => punctMixedSearchAux fuel rest (i + 1)
    else if isCommaPunct c then
      match lastIdxWhere isFullStopPunct lineRest 0 none with
      | some j => some (i, i + 1 + j + 1)
      | none => punctMixedSearchAux fuel rest (i + 1)
    else punctMixedSearchAux fuel rest (i + 1)

/-- Mixed-punctuation section (lines 217-229): a single search; the
`match` field is truncated to 10 characters. -/
def advPunctMixed (text : List Char) : List Hit :=
  match punctMixedSearchAux text.length text 0 with
  | some se =>
    [{ start := se.1, stop := se.2, hmatch := (pySlice text se.1 se.2).take 10,
       message := "句読点の種類（全角/半角）が混在しています",
       suggestion := some ("句読点を全角（、。）に統一".toList),
       severity := "WARN", rule_id := some "ADV_PUNCT_MIXED" }]
  | none => []

/-- Step function of `_ASCII_ELLIPSIS_RE = \.\.{2,}`: a maximal run of
at least three ASCII dots. -/
def ellipsisStep : List Char → Option Nat
  | [] => none
  | c :: rest =>
    if c = '.' then
      let r := rest.takeWhile (· = '.')
      if 3 ≤ 1 + r.length then some (1 + r.length) else none
    else none

/-- ASCII-ellipsis section (lines 231-241). -/
def advEllipsis (text : List Char) : List Hit :=
  (scanWith ellipsisStep text.length text 0).map fun m =>
    { start := m.1, stop := m.2.1, hmatch := m.2.2,
      message := "三点リーダはUnicodeの…に統一を推奨",
      suggestion := some ("…".toList),
      severity := "INFO", rule_id := some "ADV_ELLIPSIS" }

/-- Step function of `_SPACE_BEFORE_PUNCT_RE = [ 　]+(?=[。．，、])`:
a maximal run of spaces/ideographic spaces whose following character is
sentence punctuation (the lookahead is not consumed). -/
def spaceBeforePunctStep : List Char → Option Nat
  | [] => none
  | c :: rest =>
    if c = ' ' || c = '　' then
      let r := rest.takeWhile (fun ch => ch = ' ' || ch = '　')
      match (rest.drop r.length).head? with
      | some nxt =>
        if isFullStopPunct nxt || isCommaPunct nxt then some (1 + r.length)
        else none
      | none => none
    else none

/-- Space-before-punctuation section (lines 243-253); the suggestion is
the empty string. -/
def advSpaceBeforePunct (text : List Char) : List Hit :=
  (scanWith spaceBeforePunctStep text.length text 0).map fun m =>
    { start := m.1, stop := m.2.1, hmatch := m.2.2,
      message := "句読点直前のスペースを削除", suggestion := some [],
      severity := "WARN", rule_id := some "ADV_SPACE_BEFORE_PUNCT" }

/-- Step function of `_PROLONGED_SOUND_RE = ー{3,}`. -/
def prolongedStep : List Char → Option Nat
  | [] => none
  | c :: rest =>
    if c = 'ー' then
      let r := rest.takeWhile (· = 'ー')
      if 3 ≤ 1 + r.length then some (1 + r.length) else none
    else none

/-- Prolonged-sound section (lines 255-265). -/
def advProlonged (text : List Char) : List Hit :=
  (scanWith prolongedStep text.length text 0).map fun m =>
    { start := m.1, stop := m.2.1, hmatch := m.2.2,
      message := "伸ばし棒（ー）の多用", suggestion := none,
      severity := "INFO", rule_id := some "ADV_PROLONGED_SOUND" }

/-- `_detect_long_sentences` (lines 75-86): spans between successive
full stops (each ending just after its `。`), plus the dangling final
span, filtered to those longer than the limit. -/
def longSentenceSpansAux : List Char → Nat → Nat → Nat → List (Nat × Nat)
  | [], i, start, limit => if limit < i - start then [(start, i)] else []
  | c :: rest, i, start, limit =>
    if c = '。' then
      if limit < i + 1 - start then
        (start, i + 1) :: longSentenceSpansAux rest (i + 1) (i + 1) limit
      else longSentenceSpansAux rest (i + 1) (i + 1) limit
    else longSentenceSpansAux rest (i + 1) start limit

/-- Long-sentence section (lines 267-277). -/
def advLongSentence (cfg : AdvConfig) (text : List Char) : List Hit :=
  (longSentenceSpansAux text 0 0 cfg.LONG_SENTENCE_LIMIT).map fun se =>
    { start := se.1, stop := se.2, hmatch := (pySlice text se.1 se.2).take 10,
      message := "1文が長すぎます（可読性低下の可能性）",
      suggestion := some ("文を分割するなどの検討".toList),
      severity := "INFO", rule_id := some "ADV_LONG_SENTENCE" }

/-! ### Sentence-final punctuation section (lines 279-311) -/

/-- Python `\d` restricted to the repertoire these rules meet
(ASCII and full-width digits). -/
def pyIsDigit (c : Char) : Bool :=
  ('0' ≤ c && c ≤ '9') || (0xFF10 ≤ c.toNat && c.toNat ≤ 0xFF19)

/-- `re.match(r"^\s*(?:[-*・•●◆◇■□]|\d+[.)]|[（(]\d+[）)])\s+", ln)`:
leading whitespace, one of the three (mutually exclusive) bullet
shapes, then at least one whitespace character. -/
def isBulletLine (ln : List Char) : Bool :=
  let t := ln.drop (ln.takeWhile pyIsSpace).length
  let afterMark : Option (List Char) :=
    match t with
    | [] => none
    | c :: rest =>
      if c = '-' || c = '*' || c = '・' || c = '•' || c = '●' ||
         c = '◆' || c = '◇' || c = '■' || c = '□' then some rest
      else if pyIsDigit c then
        let ds := rest.takeWhile pyIsDigit
        match rest.drop ds.length with
        | p :: rest2 => if p = '.' || p = ')' then some rest2 else none
        | [] => none
      else if c = '（' || c = '(' then
        match rest with
        | d0 :: rest2 =>
          if pyIsDigit d0 then
            let ds := rest2.takeWhile pyIsDigit
            match rest2.drop ds.length with
            | p :: rest3 => if p = '）' || p = ')' then some rest3 else none
            | [] => none
          else none
        | [] => none
      else none
  match afterMark with
  | some rest => 1 ≤ (rest.takeWhile pyIsSpace).length
  | none => false

/-- `ln.lstrip().startswith(('#', '##', …))` collapses to a leading `#`. -/
def isMdHeaderLine (ln : List Char) : Bool :=
  (pyLstrip ln).head? = some '#'

/-- `re.match(r"^\s{0,3}>\s*", ln)`: at most three leading whitespace
characters, then `>` (the trailing `\s*` always matches). -/
def isQuoteLine (ln : List Char) : Bool :=
  let w := ln.takeWhile pyIsSpace
  w.length ≤ 3 && (ln.drop w.length).head? = some '>'

def isTableLine (ln : List Char) : Bool :=
  (pyLstrip ln).head? = some '|'

/-- `re.search(r"[\)\]\)）】》』」]$", core)`. -/
def endsWithBracket (core : List Char) : Bool :=
  match core.getLast? with
  | some c => c = ')' || c = ']' || c = '）' || c = '】' || c = '》' ||
      c = '』' || c = '」'
  | none => false

def endsWithColon (core : List Char) : Bool :=
  match core.getLast? with
  | some c => c = ':' || c = '：'
  | none => false

/-- `re.search(r"[぀-ヿ一-鿥]", ln)` (contains Japanese). -/
def containsJpCore (ln : List Char) : Bool :=
  ln.any fun c =>
    (0x3040 ≤ c.toNat && c.toNat ≤ 0x30FF) ||
    (0x4E00 ≤ c.toNat && c.toNat ≤ 0x9FFF)

/-- The per-line condition of the sentence-final-punctuation rule
(lines 293-301): the right-stripped line is nonempty, does not end in a
sentence-final mark, and matches none of the allowed exceptions. -/
def sentenceFinalViolation (ln : List Char) : Bool :=
  let core := pyRstrip ln
  let lastOk :=
    match core.getLast? with
    | some c => !(c = '。' || c = '！' || c = '？')
    | none => false
  !core.isEmpty && lastOk &&
    !(isBulletLine ln || isMdHeaderLine ln || isQuoteLine ln ||
      isTableLine ln || endsWithBracket core || endsWithColon core)

/-- Per-line walk of the sentence-final-punctuation section, with the
running document offset and the fence-toggle state. -/
def advSentenceFinalAux (sev : String) : List (List Char) → Nat → Bool → List Hit
  | [], _, _ => []
  | ln :: rest, offset, inCode =>
    if isFencePrefix (pyStrip ln) then
      advSentenceFinalAux sev rest (offset + ln.length) (!inCode)
    else
      (if containsJpCore ln && !inCode && sentenceFinalViolation ln then
        [{ start := offset, stop := offset + ln.length,
           hmatch := (pyStrip ln).take 10,
           message := "文末に句点（。）を付与してください（文末統一）",
           suggestion := none, severity := sev,
           rule_id := some "ADV_SENTENCE_FINAL_PUNCT" }]
      else []) ++ advSentenceFinalAux sev rest (offset + ln.length) inCode

def advSentenceFinal (cfg : AdvConfig) (text : List Char) : List Hit :=
  advSentenceFinalAux cfg.SENTENCE_FINAL_PUNCT_SEVERITY
    (pySplitlinesKeep text) 0 false

/-! ### Katakana deny-list section (lines 313-331) -/

/-- The class `[ァ-ヶー・]`. -/
def isKatakanaTokenChar (c : Char) : Bool :=
  (0x30A1 ≤ c.toNat && c.toNat ≤ 0x30F6) || c = 'ー' || c = '・'

def isAsciiWordChar (c : Char) : Bool := isAsciiAlnum c || c = '_'

/-- Scanner for `(?<![A-Za-z0-9_])[ァ-ヶー・]+(?![A-Za-z0-9_])`: a run
start needs a non-ASCII-word (or absent) previous character; the greedy
run backs off by exactly one character when an ASCII word character
follows (the shortened run then ends before a katakana character, which
satisfies the lookahead), failing if the run has length one. -/
def katakanaScanAux : Nat → List Char → Nat → Option Char → List (Nat × Nat × List Char)
  | 0, _, _, _ => []
  | _, [], _, _ => []
  | fuel + 1, c :: rest, i, prev =>
    let prevBlocks := match prev with | some p => isAsciiWordChar p | none => false
    if isKatakanaTokenChar c && !prevBlocks then
      let r := 1 + (rest.takeWhile isKatakanaTokenChar).length
      let after := ((c :: rest).drop r).head?
      let mlen : Option Nat :=
        match after with
        | some a => if isAsciiWordChar a then (if 2 ≤ r then some (r - 1) else none) else some r
        | none => some r
      match mlen with
      | some m =>
        (i, i + m, (c :: rest).take m) ::
          katakanaScanAux fuel ((c :: rest).drop m) (i + m)
            (((c :: rest).drop (m - 1)).head?)
      | none => katakanaScanAux fuel rest (i + 1) (some c)
    else katakanaScanAux fuel rest (i + 1) (some c)

/-- Katakana policy section: only active when a deny list is
configured.  NFKC normalisation is the identity on `[ァ-ヶー・]` tokens
(all these code points are NFKC-stable), so `token in deny or
nfkc(token) in deny` collapses to a single membership test. -/
def advKatakanaDeny (cfg : AdvConfig) (text : List Char) : List Hit :=
  if cfg.KATAKANA_DENY.isEmpty then []
  else
    (katakanaScanAux text.length text 0 none).filterMap fun m =>
      let token := m.2.2
      if token.length < 2 then none
      else if cfg.KATAKANA_ALLOW.contains token then none
      else if cfg.KATAKANA_DENY.contains token then
        some { start := m.1, stop := m.2.1, hmatch := token,
               message := "ドメイン方針によりカタカナ語の使用を抑制（許容リスト外）",
               suggestion := none, severity := "WARN",
               rule_id := some "ADV_KATAKANA_DENY" }
      else none

/-! ### Sentence-final-particle policy section (lines 333-349) -/

/-- `re.search(r"(ね|よ|かな)[。】》)]?$", ln)` on a keepends line:
`$` matches at the end or just before one trailing `\n`, so after
peeling at most one trailing newline the line must end in one of the
particles, optionally followed by one closing mark. -/
def endParticleLineMatch (ln : List Char) : Bool :=
  let eff := if ln.getLast? = some '\n' then ln.dropLast else ln
  let closers : List Char := ['。', '】', '》', ')']
  let ps : List (List Char) := ["ね".toList, "よ".toList, "かな".toList]
  ps.any fun p =>
    p.isSuffixOf eff || closers.any fun cl => (p ++ [cl]).isSuffixOf eff

def advEndParticleAux (sev : String) : List (List Char) → Nat → List Hit
  | [], _ => []
  | ln :: rest, pos =>
    (if endParticleLineMatch ln then
      let st := pyStrip ln
      [{ start := pos, stop := pos + ln.length,
         hmatch := st.drop (st.length - 5),
         message := "終助詞の使用を禁止/抑制（設定による）",
         suggestion := none, severity := sev,
         rule_id := some "ADV_END_PARTICLE" }]
    else []) ++ advEndParticleAux sev rest (pos + ln.length)

def advEndParticle (cfg : AdvConfig) (text : List Char) : List Hit :=
  if cfg.END_PARTICLE_POLICY = 0 then []
  else
    advEndParticleAux (if cfg.END_PARTICLE_POLICY = 2 then "ERROR" else "WARN")
      (pySplitlinesKeep text) 0

/-- `run_advanced` (advanced_rules.py lines 88-349): the concatenation
of all detector sections in the source's yield order. -/
def run_advanced (cfg : AdvConfig) (text : List Char) : List Hit :=
  let masked := maskedRangesMd text
  advRanukiSpecial text ++ advRanukiHeuristic text masked ++
  advTautology text masked ++ advDoubleParticle text ++
  advEmphatic cfg text ++ advDoubleAdverb text ++ advColloquial text ++
  advPunctMixed text ++ advEllipsis text ++ advSpaceBeforePunct text ++
  advProlonged text ++ advLongSentence cfg text ++
  advSentenceFinal cfg text ++ advKatakanaDeny cfg text ++
  advEndParticle cfg text

/-- `detect_style_mixed_lines` (lines 377-403): count lines ending in
polite vs plain register; when both counts reach the threshold, emit
one aggregate WARN anchored at the first `です。` (falling back to the
first `だ。`, the `-1`/`max 0` dance included). -/
def detect_style_mixed_lines (cfg : AdvConfig) (text : List Char) : Option Hit :=
  let lines := pySplitlines text
  let polite := (lines.filter fun ln =>
    ("です。".toList).isSuffixOf ln || ("ます。".toList).isSuffixOf ln).length
  let plain := (lines.filter fun ln =>
    ("だ。".toList).isSuffixOf ln || ("である。".toList).isSuffixOf ln).length
  if cfg.STYLE_MIX_THRESHOLD ≤ polite && cfg.STYLE_MIX_THRESHOLD ≤ plain then
    let pos0 : Int :=
      match pyFindAux ("です。".toList) text 0 with
      | some n => (n : Int)
      | none => -1
    let pos : Int :=
      if pos0 < 0 then
        match pyFindAux ("だ。".toList) text 0 with
        | some n => (n : Int)
        | none => -1
      else pos0
    some { start := (max 0 pos).toNat, stop := (max 0 (pos + 3)).toNat,
           hmatch := pySlice text (max 0 pos).toNat (max 0 (pos + 3)).toNat,
           message := "文体(ですます/だ・である)が混在しています（行単位集計）",
           suggestion := some ("文書内で文末表現をどちらかに統一".toList),
           severity := "WARN", rule_id := some "ADV_STYLE_MIXED_LINES" }
  else none

/-! ## Per-section rule identifiers

Each detector section stamps one fixed `rule_id`; these lemmas let the
aggregate theorems isolate a section inside `run_advanced`. -/

theorem advRanukiSpecial_ruleId (text : List Char) :
    ∀ h ∈ advRanukiSpecial text, h.rule_id = some "ADV_RANUKI" := by
  intro h hh
  simp only [advRanukiSpecial, List.mem_flatMap, List.mem_map] at hh
  rcases hh with ⟨ws, _, m, _, rfl⟩
  rfl

theorem advRanukiHeuristic_ruleId (text : List Char) (masked : List (Nat × Nat)) :
    ∀ h ∈ advRanukiHeuristic text masked, h.rule_id = some "ADV_RANUKI" := by
  intro h hh
  simp only [advRanukiHeuristic, List.mem_filterMap] at hh
  rcases hh with ⟨m, _, heq⟩
  split at heq
  · cases heq
  · split at heq
    · cases heq
    · split at heq
      · split at heq
        · cases heq
        · rw [Option.some_inj] at heq
          rw [← heq]
      · cases heq

theorem advTautology_ruleId (text : List Char) (masked : List (Nat × Nat)) :
    ∀ h ∈ advTautology text masked, h.rule_id = some "ADV_TAUTOLOGY" := by
  intro h hh
  simp only [advTautology, List.mem_flatMap, List.mem_filterMap] at hh
  rcases hh with ⟨t, _, m, _, heq⟩
  split at heq
  · cases heq
  · rw [Option.some_inj] at heq
    rw [← heq]

theorem advDoubleParticle_ruleId (text : List Char) :
    ∀ h ∈ advDoubleParticle text, h.rule_id = some "ADV_DOUBLE_PARTICLE" := by
  intro h hh
  simp only [advDoubleParticle, List.mem_flatMap, List.mem_map] at hh
  rcases hh with ⟨p, _, m, _, rfl⟩
  rfl

theorem advDoubleAdverb_ruleId (text : List Char) :
    ∀ h ∈ advDoubleAdverb text, h.rule_id = some "ADV_DOUBLE_ADVERB" := by
  intro h hh
  simp only [advDoubleAdverb, List.mem_flatMap, List.mem_map] at hh
  rcases hh with ⟨p, _, m, _, rfl⟩
  rfl

theorem advColloquial_ruleId (text : List Char) :
    ∀ h ∈ advColloquial text, h.rule_id = some "ADV_COLLOQUIAL" := by
  intro h hh
  simp only [advColloquial, List.mem_map] at hh
  rcases hh with ⟨m, _, rfl⟩
  rfl

theorem advPunctMixed_ruleId (text : List Char) :
    ∀ h ∈ advPunctMixed text, h.rule_id = some "ADV_PUNCT_MIXED" := by
  intro h hh
  rcases hs : punctMixedSearchAux text.length text 0 with _ | se
  · simp [advPunctMixed, hs] at hh
  · simp only [advPunctMixed, hs, List.mem_singleton] at hh
    rw [hh]

theorem advEllipsis_ruleId (text : List Char) :
    ∀ h ∈ advEllipsis text, h.rule_id = some "ADV_ELLIPSIS" := by
  intro h hh
  simp only [advEllipsis, List.mem_map] at hh
  rcases hh with ⟨m, _, rfl⟩
  rfl

theorem advSpaceBeforePunct_ruleId (text : List Char) :
    ∀ h ∈ advSpaceBeforePunct text, h.rule_id = some "ADV_SPACE_BEFORE_PUNCT" := by
  intro h hh
  simp only [advSpaceBeforePunct, List.mem_map] at hh
  rcases hh with ⟨m, _, rfl⟩
  rfl

theorem advProlonged_ruleId (text : List Char) :
    ∀ h ∈ advProlonged text, h.rule_id = some "ADV_PROLONGED_SOUND" := by
  intro h hh
  simp only [advProlonged, List.mem_map] at hh
  rcases hh with ⟨m, _, rfl⟩
  rfl

theorem advLongSentence_ruleId (cfg : AdvConfig) (text : List Char) :
    ∀ h ∈ advLongSentence cfg text, h.rule_id = some "ADV_LONG_SENTENCE" := by
  intro h hh
  simp only [advLongSentence, List.mem_map] at hh
  rcases hh with ⟨m, _, rfl⟩
  rfl

theorem advSentenceFinalAux_ruleId (sev : String) :
    ∀ lines offset inCode, ∀ h ∈ advSentenceFinalAux sev lines offset inCode,
      h.rule_id = some "ADV_SENTENCE_FINAL_PUNCT" := by
  intro lines
  induction lines with
  | nil => intro offset inCode h hh; simp [advSentenceFinalAux] at hh
  | cons ln rest ih =>
    intro offset inCode h hh
    rw [advSentenceFinalAux] at hh
    split at hh
    · exact ih _ _ h hh
    · rcases List.mem_append.mp hh with hh' | hh'
      · split at hh'
        · simp at hh'
          rw [hh']
        · simp at hh'
      · exact ih _ _ h hh'

theorem advSentenceFinal_ruleId (cfg : AdvConfig) (text : List Char) :
    ∀ h ∈ advSentenceFinal cfg text, h.rule_id = some "ADV_SENTENCE_FINAL_PUNCT" :=
  fun h hh => advSentenceFinalAux_ruleId _ _ _ _ h hh

theorem advKatakanaDeny_ruleId (cfg : AdvConfig) (text : List Char) :
    ∀ h ∈ advKatakanaDeny cfg text, h.rule_id = some "ADV_KATAKANA_DENY" := by
  intro h hh
  simp only [advKatakanaDeny] at hh
  split at hh
  · simp at hh
  · simp only [List.mem_filterMap] at hh
    rcases hh with ⟨m, _, heq⟩
    split at heq
    · cases heq
    · split at heq
      · cases heq
      · split at heq
        · rw [Option.some_inj] at heq
          rw [← heq]
        · cases heq

theorem advEndParticleAux_ruleId (sev : String) :
    ∀ lines pos, ∀ h ∈ advEndParticleAux sev lines pos,
      h.rule_id = some "ADV_END_PARTICLE" := by
  intro lines
  induction lines with
  | nil => intro pos h hh; simp [advEndParticleAux] at hh
  | cons ln rest ih =>
    intro pos h hh
    rw [advEndParticleAux] at hh
    rcases List.mem_append.mp hh with hh' | hh'
    · split at hh'
      · simp at hh'
        rw [hh']
      · simp at hh'
    · exact ih _ h hh'

theorem advEndParticle_ruleId (cfg : AdvConfig) (text : List Char) :
    ∀ h ∈ advEndParticle cfg text, h.rule_id = some "ADV_END_PARTICLE" := by
  intro h hh
  simp only [advEndParticle] at hh
  split at hh
  · simp at hh
  · exact advEndParticleAux_ruleId _ _ _ h hh

/-! ## Literal scans find every first occurrence -/

theorem isPrefixOf_take {w l : List Char} (h : w.isPrefixOf l) :
    l.take w.length = w := by
  rcases List.isPrefixOf_iff_prefix.mp h with ⟨t, rfl⟩
  exact List.take_left w t

/-- If a literal `w` first occurs at position `p` (in the sense of
`str.find`), the literal `finditer` scan yields the match
`(p, p + |w|, w)`. -/
theorem litScan_first (w : List Char) (hw : w ≠ []) :
    ∀ fuel (cs : List Char) i p, cs.length ≤ fuel →
      pyFindAux w cs i = some p →
      (p, p + w.length, w) ∈ scanWith (litStepOf w) fuel cs i := by
  intro fuel
  induction fuel with
  | zero =>
    intro cs i p hlen hfind
    have : cs = [] := List.eq_nil_of_length_eq_zero (Nat.le_zero.mp hlen)
    subst this
    rw [pyFindAux] at hfind
    rw [if_neg (by simpa using hw)] at hfind
    cases hfind
  | succ n ih =>
    intro cs i p hlen hfind
    rcases cs with _ | ⟨c, rest⟩
    · rw [pyFindAux] at hfind
      rw [if_neg (by simpa using hw)] at hfind
      cases hfind
    · rw [pyFindAux] at hfind
      by_cases hpre : w.isPrefixOf (c :: rest)
      · rw [if_pos hpre, Option.some_inj] at hfind
        subst hfind
        rw [scanWith]
        have hstep : litStepOf w (c :: rest) = some w.length := by
          rw [litStepOf, if_pos hpre]
        rw [hstep]
        exact List.mem_cons.mpr (Or.inl (by rw [isPrefixOf_take hpre]))
      · rw [if_neg hpre] at hfind
        rw [scanWith]
        have hstep : litStepOf w (c :: rest) = none := by
          rw [litStepOf, if_neg hpre]
        rw [hstep]
        exact ih rest (i + 1) p (by simp at hlen; omega) hfind

/-- `str.find` soundness: the found occurrence really is a prefix of
the corresponding suffix. -/
theorem pyFindAux_front (w : List Char) :
    ∀ (cs : List Char) i p, pyFindAux w cs i = some p →
      i ≤ p ∧ w.isPrefixOf (cs.drop (p - i)) := by
  intro cs
  induction cs with
  | nil =>
    intro i p h
    rw [pyFindAux] at h
    by_cases hwe : w.isEmpty
    · rw [if_pos hwe, Option.some_inj] at h
      subst h
      have hnil : w = [] := List.isEmpty_iff.mp hwe
      subst hnil
      exact ⟨Nat.le_refl _, by simp [List.isPrefixOf]⟩
    · rw [if_neg hwe] at h
      cases h
  | cons c rest ih =>
    intro i p h
    rw [pyFindAux] at h
    by_cases hpre : w.isPrefixOf (c :: rest)
    · rw [if_pos hpre, Option.some_inj] at h
      subst h
      simpa using hpre
    · rw [if_neg hpre] at h
      have := ih (i + 1) p h
      refine ⟨by omega, ?_⟩
      rcases Nat.exists_eq_add_of_le this.1 with ⟨k, hk⟩
      have e1 : p - i = k + 1 := by omega
      have e2 : p - (i + 1) = k := by omega
      rw [e1, List.drop_succ_cons]
      rw [e2] at this
      exact this.2

theorem mem_advRanukiSpecial_of (text wrong sug : List Char) (p : Nat)
    (hpair : (wrong, sug) ∈ _RANUKI_SPECIAL)
    (hm : (p, p + wrong.length, wrong) ∈ scanWith (litStepOf wrong) text.length text 0) :
    ({ start := p, stop := p + wrong.length, hmatch := wrong,
       message := "ら抜き表現の可能性", suggestion := some sug,
       severity := "WARN", rule_id := some "ADV_RANUKI" } : Hit)
        ∈ advRanukiSpecial text := by
  rw [advRanukiSpecial, List.mem_flatMap]
  refine ⟨(wrong, sug), hpair, ?_⟩
  rw [List.mem_map]
  exact ⟨(p, p + wrong.length, wrong), hm, rfl⟩

/-- **C6.** For every text containing a surface form from the curated
missing-potential-form (ら抜き) list, `run_advanced` (under any
configuration) emits a WARN `ADV_RANUKI` hit spanning that occurrence
whose suggestion is exactly the curated correction; the span really
covers the surface form (`text[start:end]` is the wrong form). -/
theorem ranuki_curated_detection (cfg : AdvConfig) (text : List Char)
    (wrong sug : List Char)
    (hpair : (wrong, sug) ∈ _RANUKI_SPECIAL)
    (p : Nat) (hfind : pyFindAux wrong text 0 = some p) :
    ({ start := p, stop := p + wrong.length, hmatch := wrong,
       message := "ら抜き表現の可能性", suggestion := some sug,
       severity := "WARN", rule_id := some "ADV_RANUKI" } : Hit)
        ∈ run_advanced cfg text ∧
    pySlice text p (p + wrong.length) = wrong := by
  have hw : wrong ≠ [] := by
    have hall : ∀ ws ∈ _RANUKI_SPECIAL, ws.1 ≠ ([] : List Char) := by decide
    exact hall (wrong, sug) hpair
  have hm := litScan_first wrong hw text.length text 0 p (Nat.le_refl _) hfind
  constructor
  · have hspec := mem_advRanukiSpecial_of text wrong sug p hpair hm
    simp only [run_advanced, List.mem_append]
    tauto
  · have hpre := (pyFindAux_front wrong text 0 p hfind).2
    simp only [Nat.sub_zero] at hpre
    rw [pySlice_eq_drop_take, Nat.add_sub_cancel_left]
    exact isPrefixOf_take hpre

/-- Witness for C6: `見れる可能性がある` yields the curated WARN hit with
suggestion `見られる` at span `[0, 3)`. -/
theorem ranuki_curated_detection_witness :
    (("見れる".toList, "見られる".toList) ∈ _RANUKI_SPECIAL ∧
      pyFindAux ("見れる".toList) ("見れる可能性がある".toList) 0 = some 0) ∧
    (({ start := 0, stop := 0 + ("見れる".toList).length, hmatch := "見れる".toList,
        message := "ら抜き表現の可能性", suggestion := some ("見られる".toList),
        severity := "WARN", rule_id := some "ADV_RANUKI" } : Hit)
          ∈ run_advanced defaultAdvConfig ("見れる可能性がある".toList) ∧
      pySlice ("見れる可能性がある".toList) 0 (0 + ("見れる".toList).length)
        = "見れる".toList) :=
  ⟨⟨by decide, by decide⟩,
    ranuki_curated_detection defaultAdvConfig ("見れる可能性がある".toList)
      ("見れる".toList) ("見られる".toList) (by decide) 0 (by decide)⟩

/-! ## C5: adverb overuse -/

/-- The aggregate adverb-overuse hits are exactly what the emphatic
section contributes: every other section stamps a different rule id. -/
theorem run_advanced_filter_emphatic (cfg : AdvConfig) (text : List Char) :
    (run_advanced cfg text).filter
        (fun h => h.rule_id = some "ADV_EMPHATIC_ADVERB_MANY") =
      (advEmphatic cfg text).filter
        (fun h => h.rule_id = some "ADV_EMPHATIC_ADVERB_MANY") := by
  have hnil : ∀ (l : List Hit) (rid : String),
      (∀ h ∈ l, h.rule_id = some rid) → rid ≠ "ADV_EMPHATIC_ADVERB_MANY" →
      l.filter (fun h => h.rule_id = some "ADV_EMPHATIC_ADVERB_MANY") = [] := by
    intro l rid hall hne
    rw [List.filter_eq_nil_iff]
    intro a ha
    rw [hall a ha]
    simp [hne]
  simp only [run_advanced, List.filter_append]
  rw [hnil _ _ (advRanukiSpecial_ruleId text) (by decide),
      hnil _ _ (advRanukiHeuristic_ruleId text _) (by decide),
      hnil _ _ (advTautology_ruleId text _) (by decide),
      hnil _ _ (advDoubleParticle_ruleId text) (by decide),
      hnil _ _ (advDoubleAdverb_ruleId text) (by decide),
      hnil _ _ (advColloquial_ruleId text) (by decide),
      hnil _ _ (advPunctMixed_ruleId text) (by decide),
      hnil _ _ (advEllipsis_ruleId text) (by decide),
      hnil _ _ (advSpaceBeforePunct_ruleId text) (by decide),
      hnil _ _ (advProlonged_ruleId text) (by decide),
      hnil _ _ (advLongSentence_ruleId cfg text) (by decide),
      hnil _ _ (advSentenceFinal_ruleId cfg text) (by decide),
      hnil _ _ (advKatakanaDeny_ruleId cfg text) (by decide),
      hnil _ _ (advEndParticle_ruleId cfg text) (by decide)]
  simp

/-- **C5.** For every configuration and text: when the emphatic-adverb
matches reach the configured threshold, `run_advanced` emits exactly one
aggregate `ADV_EMPHATIC_ADVERB_MANY` issue, anchored at the span of the
first occurrence; with strictly fewer matches it emits none. -/
theorem emphatic_overuse_aggregate (cfg : AdvConfig) (text : List Char) :
    ((emphaticMatches text).length < cfg.EMPH_THRESHOLD →
      (run_advanced cfg text).filter
        (fun h => h.rule_id = some "ADV_EMPHATIC_ADVERB_MANY") = []) ∧
    (∀ m0 ms, emphaticMatches text = m0 :: ms →
      cfg.EMPH_THRESHOLD ≤ (emphaticMatches text).length →
      (run_advanced cfg text).filter
        (fun h => h.rule_id = some "ADV_EMPHATIC_ADVERB_MANY") =
        [{ start := m0.1, stop := m0.2.1, hmatch := m0.2.2,
           message := "強調副詞（非常に/とても/すごく など）の多用",
           suggestion := none, severity := "WARN",
           rule_id := some "ADV_EMPHATIC_ADVERB_MANY" }]) := by
  rw [run_advanced_filter_emphatic]
  constructor
  · intro hlt
    rw [advEmphatic, if_neg (by omega)]
    simp
  · intro m0 ms hms hge
    rw [advEmphatic, if_pos hge, hms]
    simp

/-- Witness for C5: with the default threshold 2, the text
`とてもきれいでとても速い` has exactly two emphatic matches and yields
the single aggregate hit at `[0, 3)`; dropping one occurrence
(`とてもきれいで速い`, one match) yields none. -/
theorem emphatic_overuse_aggregate_witness :
    (emphaticMatches ("とてもきれいでとても速い".toList)
        = [(0, 3, "とても".toList), (7, 10, "とても".toList)] ∧
      defaultAdvConfig.EMPH_THRESHOLD
        ≤ (emphaticMatches ("とてもきれいでとても速い".toList)).length ∧
      (run_advanced defaultAdvConfig ("とてもきれいでとても速い".toList)).filter
        (fun h => h.rule_id = some "ADV_EMPHATIC_ADVERB_MANY") =
        [{ start := 0, stop := 3, hmatch := "とても".toList,
           message := "強調副詞（非常に/とても/すごく など）の多用",
           suggestion := none, severity := "WARN",
           rule_id := some "ADV_EMPHATIC_ADVERB_MANY" }]) ∧
    ((emphaticMatches ("とてもきれいで速い".toList)).length
        < defaultAdvConfig.EMPH_THRESHOLD ∧
      (run_advanced defaultAdvConfig ("とてもきれいで速い".toList)).filter
        (fun h => h.rule_id = some "ADV_EMPHATIC_ADVERB_MANY") = []) :=
  ⟨⟨by decide, by decide,
    (emphatic_overuse_aggregate defaultAdvConfig
        ("とてもきれいでとても速い".toList)).2
      (0, 3, "とても".toList) [(7, 10, "とても".toList)] (by decide) (by decide)⟩,
   ⟨by decide,
    (emphatic_overuse_aggregate defaultAdvConfig
        ("とてもきれいで速い".toList)).1 (by decide)⟩⟩

/-! ## `check_text` (`checker.py` lines 28-191) -/

/-- The `Issue` dataclass (checker.py lines 28-49).  `stop` models the
Python field `end`. -/
structure Issue where
  file : Option String
  start : Nat
  stop : Nat
  snippet : List Char
  message : String
  suggestion : Option (List Char)
  severity : String
  rule_id : Option String
deriving DecidableEq, Repr

/-- The collaborators `check_text` consumes, made explicit: the
process-wide typo-rule registry (`typo_rules.run_rules`, whose content
depends on loaded external rule files), and the optional
availability-probed providers (morph tokenizer, LanguageTool,
spaCy/GiNZA, rapidfuzz spell checker).  Each provider returns raw hits
with offsets relative to the text it is given, per the issue-provider
interface. -/
structure Providers where
  run_rules : List Char → List Hit
  morph_available : Bool
  tokenize_with_spans : List Char → List (Nat × Nat × List Char)
  lt_available : Bool
  run_languagetool : List Char → String → List Hit
  nlp_available : Bool
  run_nlp : List Char → String → List Hit
  spell_available : Bool
  run_spellcheck : List Char → List (List Char) → List Hit

/-- Issue construction shared by every provider loop in `check_text`:
offsets are shifted by the (sub)span start `s2` into document
coordinates and the snippet is re-sliced from the full document
(`text[rel_start:rel_end]`).  The Python `hit.get("severity", …)`
defaults never fire because every provider hit carries a severity. -/
def hitToIssue (file : Option String) (text : List Char) (s2 : Nat) (hit : Hit) : Issue :=
  { file := file, start := s2 + hit.start, stop := s2 + hit.stop,
    snippet := pySlice text (s2 + hit.start) (s2 + hit.stop),
    message := hit.message, suggestion := hit.suggestion,
    severity := hit.severity, rule_id := hit.rule_id }

/-- `check_text` (checker.py lines 63-191): gather spans, optionally
refine them into morph token sub-spans (offsets shifted by the span
start), run the basic rules and each enabled provider on every
sub-span, shifting hit offsets into document coordinates; finally the
document-level style-mix check. -/
def check_text (P : Providers) (cfg : AdvConfig) (text : List Char)
    (from_code : Bool) (file : Option String) (include_comments : Bool)
    (morph : Bool) (advanced : Bool) (lt : Bool) (lt_lang : String)
    (nlp : Bool) (nlp_model : String) (spell : Bool)
    (dict_words : Option (List (List Char))) (semantic : Bool) : List Issue :=
  let spans := gather_spans text from_code include_comments
  (spans.flatMap fun sp =>
    let subspans : List (Nat × Nat × List Char) :=
      if morph && P.morph_available then
        (P.tokenize_with_spans sp.2.2).map fun t => (sp.1 + t.1, sp.1 + t.2.1, t.2.2)
      else [sp]
    subspans.flatMap fun sub =>
      (P.run_rules sub.2.2).map (hitToIssue file text sub.1) ++
      ((if advanced then
          (run_advanced cfg sub.2.2).map (hitToIssue file text sub.1)
        else []) ++
      ((if lt && P.lt_available then
          (P.run_languagetool sub.2.2 lt_lang).map (hitToIssue file text sub.1)
        else []) ++
      ((if (nlp || semantic) && P.nlp_available then
          (P.run_nlp sub.2.2 nlp_model).map (hitToIssue file text sub.1)
        else []) ++
      (match dict_words with
       | some ws =>
         if spell && P.spell_available && !ws.isEmpty then
           (P.run_spellcheck sub.2.2 ws).map (hitToIssue file text sub.1)
         else []
       | none => []))))) ++
  (if advanced then
    match detect_style_mixed_lines cfg text with
    | some hit => [hitToIssue file text 0 hit]
    | none => []
  else [])

theorem hitToIssue_snippet (file : Option String) (text : List Char)
    (s2 : Nat) (hit : Hit) :
    (hitToIssue file text s2 hit).snippet =
      pySlice text (hitToIssue file text s2 hit).start
        (hitToIssue file text s2 hit).stop := rfl

theorem mem_of_mem_if_nil {α : Type} {c : Prop} [Decidable c]
    {l : List α} {a : α} (h : a ∈ (if c then l else [])) : a ∈ l := by
  split at h
  · exact h
  · cases h

/-- **C1.** For every input text and every `Issue` returned by
`check_text` — under any providers, configuration, flags, file label,
and dictionary, hence including issues produced from Japanese fragments
nested inside quoted string literals or inside comments — the issue's
offsets index into the original full document:
`text[issue.start:issue.end] = issue.snippet`.  In addition every
gathered span (the offset translation at each nesting boundary being by
addition: literal interiors shifted by `literal_start + 1`, comment
interiors by `comment_start`) has its content equal to the document
slice at its offsets. -/
theorem check_text_offsets_index_document (P : Providers) (cfg : AdvConfig)
    (text : List Char) (from_code : Bool) (file : Option String)
    (include_comments morph advanced lt : Bool) (lt_lang : String)
    (nlp : Bool) (nlp_model : String) (spell : Bool)
    (dict_words : Option (List (List Char))) (semantic : Bool) :
    (∀ sp ∈ gather_spans text from_code include_comments,
      sp.2.2 = pySlice text sp.1 sp.2.1) ∧
    (∀ i ∈ check_text P cfg text from_code file include_comments morph
        advanced lt lt_lang nlp nlp_model spell dict_words semantic,
      i.snippet = pySlice text i.start i.stop) := by
  constructor
  · intro sp hsp
    exact (gather_spans_content text from_code include_comments sp hsp).2.2
  · intro i hi
    rw [check_text] at hi
    rcases List.mem_append.mp hi with hi | hi
    · rw [List.mem_flatMap] at hi
      rcases hi with ⟨sp, _, hi⟩
      rw [List.mem_flatMap] at hi
      rcases hi with ⟨sub, _, hi⟩
      rcases List.mem_append.mp hi with hi | hi
      · rcases List.mem_map.mp hi with ⟨hit, _, rfl⟩
        rfl
      rcases List.mem_append.mp hi with hi | hi
      · rcases List.mem_map.mp (mem_of_mem_if_nil hi) with ⟨hit, _, rfl⟩
        rfl
      rcases List.mem_append.mp hi with hi | hi
      · rcases List.mem_map.mp (mem_of_mem_if_nil hi) with ⟨hit, _, rfl⟩
        rfl
      rcases List.mem_append.mp hi with hi | hi
      · rcases List.mem_map.mp (mem_of_mem_if_nil hi) with ⟨hit, _, rfl⟩
        rfl
      · rcases dict_words with _ | ws
        · cases hi
        · rcases List.mem_map.mp (mem_of_mem_if_nil hi) with ⟨hit, _, rfl⟩
          rfl
    · have hi' := mem_of_mem_if_nil hi
      rcases hsm : detect_style_mixed_lines cfg text with _ | hit
      · rw [hsm] at hi'
        cases hi'
      · rw [hsm] at hi'
        rcases List.mem_singleton.mp hi' with rfl
        rfl

/-- A concrete provider assignment for witnesses: an empty rule
registry and no optional collaborators installed. -/
def exampleProviders : Providers :=
  { run_rules := fun _ => [], morph_available := false,
    tokenize_with_spans := fun t => [(0, t.length, t)],
    lt_available := false, run_languagetool := fun _ _ => [],
    nlp_available := false, run_nlp := fun _ _ => [],
    spell_available := false, run_spellcheck := fun _ _ => [] }

/-- The comment-nested issue of the C1 witness text. -/
def exampleCommentIssue : Issue :=
  { file := none, start := 7, stop := 11, snippet := "有り難う".toList,
    message := "文末に句点（。）を付与してください（文末統一）",
    suggestion := none, severity := "INFO",
    rule_id := some "ADV_SENTENCE_FINAL_PUNCT" }

/-- Witness for C1: on `"見れる" #有り難う` (a string literal plus a hash
comment) the advanced rules produce an issue from inside the comment at
document offsets `[7, 11)`, and the theorem instantiates to
`text[7:11] = issue.snippet`. -/
theorem check_text_offsets_index_document_witness :
    (exampleCommentIssue ∈ check_text exampleProviders defaultAdvConfig
        ("\"見れる\" #有り難う".toList) true none true false true false "ja-JP"
        false "ja_ginza" false none false) ∧
    exampleCommentIssue.snippet =
      pySlice ("\"見れる\" #有り難う".toList) exampleCommentIssue.start
        exampleCommentIssue.stop :=
  ⟨by decide,
    (check_text_offsets_index_document exampleProviders defaultAdvConfig
        ("\"見れる\" #有り難う".toList) true none true false true false "ja-JP"
        false "ja_ginza" false none false).2 exampleCommentIssue (by decide)⟩

/-! ## `fixer.py`: context filter (`_context_allows`, lines 100-131) -/

def toLowerAscii (c : Char) : Char :=
  if 'A' ≤ c && c ≤ 'Z' then Char.ofNat (c.toNat + 32) else c

/-- `_URL_RE.search`: `https?://|ftp://|www\.` with `re.IGNORECASE`
(ASCII case folding; the patterns are pure ASCII). -/
def searchURL (cs : List Char) : Bool :=
  let low := cs.map toLowerAscii
  containsSub ("http://".toList) low || containsSub ("https://".toList) low ||
  containsSub ("ftp://".toList) low || containsSub ("www.".toList) low

def isEmailLocalChar (c : Char) : Bool :=
  isAsciiAlnum c || c = '.' || c = '_' || c = '%' || c = '+' || c = '-'

def isEmailDomChar (c : Char) : Bool :=
  isAsciiAlnum c || c = '.' || c = '-'

def isAsciiAlpha (c : Char) : Bool :=
  ('A' ≤ c && c ≤ 'Z') || ('a' ≤ c && c ≤ 'z')

/-- After an `@`: search for `[A-Za-z0-9.-]+\.[A-Za-z]{2,}` anchored
here — some position with at least one domain character before it
holding `.` followed by two ASCII letters (a match of the full pattern
exists iff such a split exists, `.` being itself a domain character). -/
def emailTailScan : List Char → Nat → Bool
  | [], _ => false
  | c :: rest, k =>
    (c = '.' && 1 ≤ k &&
      (match rest with
       | a :: b :: _ => isAsciiAlpha a && isAsciiAlpha b
       | _ => false)) ||
    (if isEmailDomChar c then emailTailScan rest (k + 1) else false)

/-- `_EMAIL_RE.search`: an `@` with a local-part character immediately
before it and a well-formed domain tail after it (existence of a match
of `[A-Za-z0-9._%+-]+@[A-Za-z0-9.-]+\.[A-Za-z]{2,}` is equivalent to
this, single-character local parts sufficing for existence). -/
def searchEmail : List Char → Bool
  | a :: '@' :: rest =>
    (isEmailLocalChar a && emailTailScan rest 0) || searchEmail ('@' :: rest)
  | _ :: rest => searchEmail rest
  | [] => false

def backtickChar : Char := Char.ofNat 96

/-- Existence of a back-ticked span (the first code-hint alternative):
two consecutive back-ticks with at least one character between them. -/
def searchBacktickSpan : List Char → Bool
  | [] => false
  | c :: rest =>
    if c = backtickChar then
      let r := rest.takeWhile (· ≠ backtickChar)
      match (rest.drop r.length).head? with
      | some _ => if 1 ≤ r.length then true else searchBacktickSpan rest
      | none => false
    else searchBacktickSpan rest

/-- Python `\w` (Unicode word character), restricted to the repertoire
exercised by this code base: ASCII alphanumerics and underscore,
Latin-1/Latin-extended letters, kana (including iteration and
prolongation marks), CJK ideographs, and the full-width/half-width
forms.  Characters outside these blocks that appear in the sources
(punctuation, whitespace, symbols) are correctly classified as
non-word. -/
def pyIsWordChar (c : Char) : Bool :=
  isAsciiAlnum c || c = '_' ||
  (0x00C0 ≤ c.toNat && c.toNat ≤ 0x024F && c.toNat ≠ 0xD7 && c.toNat ≠ 0xF7) ||
  (0x3041 ≤ c.toNat && c.toNat ≤ 0x3096) ||
  (0x309D ≤ c.toNat && c.toNat ≤ 0x309F) ||
  (0x30A1 ≤ c.toNat && c.toNat ≤ 0x30FA) ||
  (0x30FC ≤ c.toNat && c.toNat ≤ 0x30FF) ||
  (0x3400 ≤ c.toNat && c.toNat ≤ 0x9FFF) ||
  (0xF900 ≤ c.toNat && c.toNat ≤ 0xFAFF) ||
  (0xFF10 ≤ c.toNat && c.toNat ≤ 0xFF19) ||
  (0xFF21 ≤ c.toNat && c.toNat ≤ 0xFF3A) ||
  (0xFF41 ≤ c.toNat && c.toNat ≤ 0xFF5A) ||
  (0xFF66 ≤ c.toNat && c.toNat ≤ 0xFF9F)

def isAsciiWordChar2 (c : Char) : Bool := isAsciiAlnum c || c = '_'

/-- Existence of `\b[A-Za-z_][A-Za-z0-9_]*\(\)`: a word boundary, an
ASCII letter or underscore, the maximal ASCII-word run from there, and
`()` immediately after (a shorter run would be followed by an ASCII
word character, not `(`). -/
def searchFuncCallAux : List Char → Option Char → Bool
  | [], _ => false
  | c :: rest, prev =>
    ((match prev with
      | some pch => !pyIsWordChar pch
      | none => true) &&
      (isAsciiAlpha c || c = '_') &&
      (match rest.drop (rest.takeWhile isAsciiWordChar2).length with
       | '(' :: ')' :: _ => true
       | _ => false)) ||
    searchFuncCallAux rest (some c)

def searchFuncCall (cs : List Char) : Bool := searchFuncCallAux cs none

/-- Existence of `<[^>]+>`: a `<` whose nearest following `>` is at
distance at least two. -/
def searchAngleTag : List Char → Bool
  | [] => false
  | c :: rest =>
    if c = '<' then
      let r := rest.takeWhile (· ≠ '>')
      match (rest.drop r.length).head? with
      | some _ => if 1 ≤ r.length then true else searchAngleTag rest
      | none => false
    else searchAngleTag rest

/-- `_CODE_HINT_RE.search`: back-ticked span, function-call-like token,
scope-resolution token (`::{1,2}` matches somewhere iff `::` occurs),
or angle-bracket tag. -/
def searchCodeHint (cs : List Char) : Bool :=
  searchBacktickSpan cs || searchFuncCall cs ||
  containsSub ("::".toList) cs || searchAngleTag cs

def isUpperTokChar (c : Char) : Bool :=
  ('A' ≤ c && c ≤ 'Z') || ('0' ≤ c && c ≤ '9') || c = '_'

/-- Existence of `_UPPER_TOKEN_RE = \b[A-Z][A-Z0-9_]{2,}\b`: a word
boundary, an upper-case letter, a maximal `[A-Z0-9_]` run of length at
least two after it, and a word boundary after the run (only the maximal
run can satisfy the trailing boundary). -/
def searchUpperTokenAux : List Char → Option Char → Bool
  | [], _ => false
  | c :: rest, prev =>
    ((match prev with
      | some pch => !pyIsWordChar pch
      | none => true) &&
      ('A' ≤ c && c ≤ 'Z') &&
      (let r := rest.takeWhile isUpperTokChar
       2 ≤ r.length &&
        (match (rest.drop r.length).head? with
         | some nxt => !pyIsWordChar nxt
         | none => true))) ||
    searchUpperTokenAux rest (some c)

def searchUpperToken (cs : List Char) : Bool := searchUpperTokenAux cs none

/-- The Japanese-character count of `_context_allows` line 122
(`一-龥`, `ぁ-ゖ`, `ァ-ヺ`). -/
def isJpForRatio (c : Char) : Bool :=
  (0x4E00 ≤ c.toNat && c.toNat ≤ 0x9FA5) ||
  (0x3041 ≤ c.toNat && c.toNat ≤ 0x3096) ||
  (0x30A1 ≤ c.toNat && c.toNat ≤ 0x30FA)

def jpRatioCount (l : List Char) : Nat := l.countP isJpForRatio

/-- `_context_allows` (fixer.py lines 105-131).  The float comparison
`jp / len(snip) < 0.3` is modelled by the exact rational comparison
`10 * jp < 3 * len(snip)`; the two agree for every snippet shorter than
about `10^15` characters (the double nearest `0.3` differs from `3/10`
by about `1.1 * 10^-17`). -/
def _context_allows (issue : Issue) (full_text : List Char) : Bool :=
  let s := issue.start
  let e := issue.stop
  let ctx := pySlice full_text (s - 100) (min full_text.length (e + 100))
  let snip := pySlice full_text s e
  if searchURL ctx || searchEmail ctx then false
  else if searchCodeHint ctx then false
  else if searchUpperToken ctx then false
  else if 0 < snip.length && 10 * jpRatioCount snip < 3 * snip.length then false
  else if pyCountSub ("```".toList) (pySlice full_text 0 s) % 2 = 1 &&
      pyCountSub ("```".toList) (pySliceFrom full_text e) % 2 = 1 then false
  else true

/-- The rejection condition as the claim enumerates it. -/
def contextRejectSpec (issue : Issue) (full_text : List Char) : Prop :=
  let ctx := pySlice full_text (issue.start - 100)
    (min full_text.length (issue.stop + 100))
  let snip := pySlice full_text issue.start issue.stop
  searchURL ctx = true ∨ searchEmail ctx = true ∨
  searchCodeHint ctx = true ∨ searchUpperToken ctx = true ∨
  10 * jpRatioCount snip < 3 * snip.length ∨
  (Odd (pyCountSub ("```".toList) (pySlice full_text 0 issue.start)) ∧
   Odd (pyCountSub ("```".toList) (pySliceFrom full_text issue.stop)))

/-- **C4.** The context filter rejects an issue exactly when its ±100
character neighbourhood contains a URL or email pattern, a code-like
hint, or an all-caps identifier-like token, or the issue's snippet has
fewer than 30% Japanese-script characters, or the counts of ```` ``` ````
fence markers strictly before the start and strictly after the end are
both odd. -/
theorem context_filter_rejects_iff (issue : Issue) (full_text : List Char) :
    _context_allows issue full_text = false ↔ contextRejectSpec issue full_text := by
  simp only [_context_allows, contextRejectSpec, Nat.odd_iff]
  set ctx := pySlice full_text (issue.start - 100)
    (min full_text.length (issue.stop + 100))
  set snip := pySlice full_text issue.start issue.stop
  set a := pyCountSub ("```".toList) (pySlice full_text 0 issue.start)
  set b := pyCountSub ("```".toList) (pySliceFrom full_text issue.stop)
  clear_value ctx snip a b
  constructor
  · intro h
    split_ifs at h with h1 h2 h3 h4 h5
    · simp only [Bool.or_eq_true] at h1
      tauto
    · tauto
    · tauto
    · simp only [Bool.and_eq_true, decide_eq_true_eq] at h4
      tauto
    · simp only [Bool.and_eq_true, decide_eq_true_eq] at h5
      tauto
  · intro h
    split_ifs with h1 h2 h3 h4 h5
    · rfl
    · rfl
    · rfl
    · rfl
    · rfl
    · exfalso
      simp only [Bool.or_eq_true] at h1
      simp only [Bool.and_eq_true, decide_eq_true_eq] at h4 h5
      push_neg at h1
      rcases h with h | h | h | h | h | h
      · exact absurd h h1.1
      · exact absurd h h1.2
      · exact absurd h h2
      · exact absurd h h3
      · have h4' : ¬(0 < snip.length ∧ 10 * jpRatioCount snip < 3 * snip.length) := by
          simpa using h4
        omega
      · have h5' : ¬(a % 2 = 1 ∧ b % 2 = 1) := by simpa using h5
        omega

/-! ## `fixer.py`: replacement helpers (lines 12-98) -/

/-- `_compress_run` (lines 12-19): collapse a run to one character,
preferring the given full-width character when it occurs in the run. -/
def _compress_run (s : List Char) (prefer_fullwidth : Option (List Char)) : List Char :=
  match s with
  | [] => []
  | c0 :: _ =>
    match prefer_fullwidth with
    | some p => if containsSub p s then p else [c0]
    | none => [c0]

/-- NFKC normalisation, restricted to the repertoire the fixer feeds it
(full-width ASCII variants, the ideographic space, and half-width
katakana with voiced/semi-voiced composition); other characters are
NFKC-stable in the texts these rules process and are left unchanged. -/
def halfKanaPairs : List (Char × Char) :=
  "ｦｧｨｩｪｫｬｭｮｯｰｱｲｳｴｵｶｷｸｹｺｻｼｽｾｿﾀﾁﾂﾃﾄﾅﾆﾇﾈﾉﾊﾋﾌﾍﾎﾏﾐﾑﾒﾓﾔﾕﾖﾗﾘﾙﾚﾛﾜﾝ".toList.zip
    "ヲァィゥェォャュョッーアイウエオカキクケコサシスセソタチツテトナニヌネノハヒフヘホマミムメモヤユヨラリルレロワン".toList

def voicedCompPairs : List (Char × Char) :=
  "カキクケコサシスセソタチツテトハヒフヘホウワ".toList.zip
    "ガギグゲゴザジズゼゾダヂヅデドバビブベボヴヷ".toList

def semivoicedCompPairs : List (Char × Char) :=
  "ハヒフヘホ".toList.zip "パピプペポ".toList

def lookupPair (l : List (Char × Char)) (c : Char) : Option Char :=
  (l.find? (fun p => p.1 = c)).map (fun p => p.2)

def pyNFKCchar (c : Char) : Char :=
  if 0xFF01 ≤ c.toNat && c.toNat ≤ 0xFF5E then Char.ofNat (c.toNat - 0xFEE0)
  else if c.toNat = 0x3000 then ' '
  else if c.toNat = 0xFF9E then Char.ofNat 0x3099
  else if c.toNat = 0xFF9F then Char.ofNat 0x309A
  else
    match lookupPair halfKanaPairs c with
    | some f => f
    | none => c

def pyNFKCcompose : List Char → List Char
  | [] => []
  | [c] => [c]
  | c :: d :: rest =>
    if d.toNat = 0x3099 then
      match lookupPair voicedCompPairs c with
      | some v => v :: pyNFKCcompose rest
      | none => c :: pyNFKCcompose (d :: rest)
    else if d.toNat = 0x309A then
      match lookupPair semivoicedCompPairs c with
      | some v => v :: pyNFKCcompose rest
      | none => c :: pyNFKCcompose (d :: rest)
    else c :: pyNFKCcompose (d :: rest)

/-- `_normalize_alnum_kana` (lines 21-23): NFKC. -/
def _normalize_alnum_kana (s : List Char) : List Char :=
  pyNFKCcompose (s.map pyNFKCchar)

/-- `_fix_double_particles` (lines 25-29). -/
def _fix_double_particles (s : List Char) : List Char :=
  match s with
  | [a, b] => if a = b then [a] else s
  | _ => s

/-- `COLLOQ_MAP` (lines 31-38). -/
def COLLOQ_MAP : List (List Char × List Char) :=
  [("とかさ".toList, "など".toList), ("とか".toList, "など".toList),
   ("っぽさ".toList, "のような性質".toList), ("っぽい".toList, "のような".toList),
   ("みたいな".toList, "のような".toList), ("みたい".toList, "のようだ".toList)]

/-- `_fix_colloquial` (lines 40-41): dictionary lookup with identity
default. -/
def _fix_colloquial (s : List Char) : List Char :=
  match (COLLOQ_MAP.find? (fun p => p.1 = s)).map (fun p => p.2) with
  | some v => v
  | none => s

/-- `re.split(r"\s+", s, maxsplit=1)`: split at the first maximal
whitespace run. -/
def pySplitWs1 (s : List Char) : List (List Char) :=
  let pre := s.takeWhile (fun c => !pyIsSpace c)
  let rest := s.drop pre.length
  if rest.isEmpty then [s]
  else [pre, rest.drop (rest.takeWhile pyIsSpace).length]

/-- `_fix_double_adverb` (lines 43-54): known pair → keep the second
adverb; otherwise drop everything up to the first whitespace run. -/
def _fix_double_adverb (s : List Char) : List Char :=
  match _DOUBLE_ADV_PAIRS.find? (fun p =>
      p.1.isPrefixOf s && p.2.isPrefixOf (pyLstrip (s.drop p.1.length))) with
  | some p => p.2
  | none =>
    match pySplitWs1 s with
    | [_, after] => after
    | _ => s

/-- `_fix_punct_mixed` (lines 56-58). -/
def _fix_punct_mixed (s : List Char) : List Char :=
  s.map fun c => if c = '．' then '。' else if c = '，' then '、' else c

/-- `_fix_space_before_punct` (lines 60-62). -/
def _fix_space_before_punct (_s : List Char) : List Char := []

/-- `re.sub` of a run pattern `p{minLen,}` by a fixed replacement
(used for `\.{2,} → …`, `ー{2,} → ー`, `\s{2,} → " "`). -/
def subRunWith (p : Char → Bool) (minLen : Nat) (repl : List Char) :
    Nat → List Char → List Char
  | 0, l => l
  | _, [] => []
  | fuel + 1, c :: rest =>
    if p c then
      let r := 1 + (rest.takeWhile p).length
      if minLen ≤ r then
        repl ++ subRunWith p minLen repl fuel ((c :: rest).drop r)
      else
        (c :: rest.takeWhile p) ++ subRunWith p minLen repl fuel (rest.drop (r - 1))
    else c :: subRunWith p minLen repl fuel rest

/-- `_fix_ellipsis_ascii` (lines 64-65): `re.sub(r"\.{2,}", "…", s)`. -/
def _fix_ellipsis_ascii (s : List Char) : List Char :=
  subRunWith (· = '.') 2 ("…".toList) s.length s

/-- `_fix_long_dash` (lines 67-68): `re.sub(r"ー{2,}", "ー", s)`. -/
def _fix_long_dash (s : List Char) : List Char :=
  subRunWith (· = 'ー') 2 ("ー".toList) s.length s

/-- `_fix_repeat_char` (lines 70-80). -/
def _fix_repeat_char (s : List Char) : List Char :=
  if s.contains '、' then "、".toList
  else if s.contains '。' then "。".toList
  else if s.contains '！' || s.contains '!' then _compress_run s (some ("！".toList))
  else if s.contains '？' || s.contains '?' then _compress_run s (some ("？".toList))
  else
    match s with
    | c0 :: _ => [c0]
    | [] => []

/-- The class `[぀-ヿ一-鿥]` used by the inner-space rule. -/
def cjkSpaceClass (c : Char) : Bool :=
  (0x3040 ≤ c.toNat && c.toNat ≤ 0x30FF) ||
  (0x4E00 ≤ c.toNat && c.toNat ≤ 0x9FFF)

/-- `_fix_cjk_inner_space` (lines 82-84):
`re.sub(r"(?<=[JP])[ ]+(?=[JP])", "", s)` — delete maximal plain-space
runs that sit between Japanese characters (look-around positions refer
to the original string). -/
def cjkSpaceAux : Nat → List Char → Option Char → List Char
  | 0, l, _ => l
  | _, [], _ => []
  | fuel + 1, c :: rest, prev =>
    if c = ' ' && (match prev with | some p => cjkSpaceClass p | none => false) then
      let r := 1 + (rest.takeWhile (· = ' ')).length
      match ((c :: rest).drop r).head? with
      | some nxt =>
        if cjkSpaceClass nxt then cjkSpaceAux fuel ((c :: rest).drop r) (some ' ')
        else (c :: rest.takeWhile (· = ' ')) ++ cjkSpaceAux fuel ((c :: rest).drop r) (some ' ')
      | none => c :: rest
    else c :: cjkSpaceAux fuel rest (some c)

def _fix_cjk_inner_space (s : List Char) : List Char :=
  cjkSpaceAux s.length s none

/-- `_fix_multi_spaces` (lines 86-87): `re.sub(r"\s{2,}", " ", s)`. -/
def _fix_multi_spaces (s : List Char) : List Char :=
  subRunWith pyIsSpace 2 [' '] s.length s

/-- First pass of `_fix_punct_order`: `re.sub(r"[。．][、，]+", "。", s)`. -/
def subPunctOrder1 : Nat → List Char → List Char
  | 0, l => l
  | _, [] => []
  | fuel + 1, c :: rest =>
    if isFullStopPunct c then
      let r := (rest.takeWhile isCommaPunct).length
      if 1 ≤ r then '。' :: subPunctOrder1 fuel (rest.drop r)
      else c :: subPunctOrder1 fuel rest
    else c :: subPunctOrder1 fuel rest

/-- Second pass of `_fix_punct_order`: `re.sub(r"[、，][。．]+", "、", s)`. -/
def subPunctOrder2 : Nat → List Char → List Char
  | 0, l => l
  | _, [] => []
  | fuel + 1, c :: rest =>
    if isCommaPunct c then
      let r := (rest.takeWhile isFullStopPunct).length
      if 1 ≤ r then '、' :: subPunctOrder2 fuel (rest.drop r)
      else c :: subPunctOrder2 fuel rest
    else c :: subPunctOrder2 fuel rest

/-- `_fix_punct_order` (lines 89-92). -/
def _fix_punct_order (s : List Char) : List Char :=
  subPunctOrder2 s.length (subPunctOrder1 s.length s)

/-- `_fix_kango_to_hiragana` (lines 94-98): `replace("為", "ため")` then
`replace("貰", "もら")` (single-character patterns commute into one
character-wise pass). -/
def _fix_kango_to_hiragana (s : List Char) : List Char :=
  s.flatMap fun c =>
    if c = '為' then "ため".toList
    else if c = '貰' then "もら".toList
    else [c]

/-- `_is_japanese_char` (lines 133-134). -/
def _is_japanese_char (c : Char) : Bool :=
  (0x4E00 ≤ c.toNat && c.toNat ≤ 0x9FA5) ||
  (0x3041 ≤ c.toNat && c.toNat ≤ 0x3096) ||
  (0x30A1 ≤ c.toNat && c.toNat ≤ 0x30FA) || c = 'ー'

def jpSafeCount (s : List Char) : Nat := s.countP _is_japanese_char

/-- `_lt_suggestion_is_safe` (lines 142-155).  The float ratio
comparisons `_jp_ratio(orig) >= 0.5` and `_jp_ratio(sug) < 0.3` are
modelled exactly as rationals (with `_jp_ratio("") = 0.0` per lines
137-138); exact and double comparison agree for all realistic string
lengths. -/
def _lt_suggestion_is_safe (orig sug : List Char) : Bool :=
  if 3 < (if orig.length ≤ sug.length then sug.length - orig.length
          else orig.length - sug.length) then false
  else if sug.any isAsciiAlpha then false
  else if (if orig.isEmpty then false else orig.length ≤ 2 * jpSafeCount orig) &&
      (if sug.isEmpty then true else 10 * jpSafeCount sug < 3 * sug.length) then false
  else if sug.any (fun c => c.toNat < 32) then false
  else true

/-! ## `_compute_suggestion` (fixer.py lines 157-296) -/

/-- The mojibake/invisible-space class of rule 1
(`[� ​‌‍﻿]`; the pattern lists U+FFFD
twice). -/
def isMojibakeChar (c : Char) : Bool :=
  c.toNat = 0xFFFD || c.toNat = 0x00A0 || c.toNat = 0x200B ||
  c.toNat = 0x200C || c.toNat = 0x200D || c.toNat = 0xFEFF

/-- The class `[ぁ-んァ-ヶ一-龥]` of rule 2. -/
def isDoubledWordChar (c : Char) : Bool :=
  (0x3041 ≤ c.toNat && c.toNat ≤ 0x3093) ||
  (0x30A1 ≤ c.toNat && c.toNat ≤ 0x30F6) ||
  (0x4E00 ≤ c.toNat && c.toNat ≤ 0x9FA5)

/-- The class `[ぁ-んァ-ヶ]` of rules 3 and 10. -/
def isKanaChar (c : Char) : Bool :=
  (0x3041 ≤ c.toNat && c.toNat ≤ 0x3093) ||
  (0x30A1 ≤ c.toNat && c.toNat ≤ 0x30F6)

/-- `s = w ++ w ++ … ++ w` (at least once), by repeated prefix
stripping. -/
def isRepetitionOf : Nat → List Char → List Char → Bool
  | 0, s, _ => s.isEmpty
  | _, [], _ => true
  | fuel + 1, s, w =>
    if w.isEmpty then false
    else if w.isPrefixOf s then isRepetitionOf fuel (s.drop w.length) w
    else false

/-- `re.fullmatch(r"([ぁ-んァ-ヶ一-龥]{2,})\1+", snip)`: the snippet is
`w` repeated at least twice for some class word `w` of length at least
two. -/
def doubledWordFullmatch (s : List Char) : Bool :=
  s.all isDoubledWordChar &&
    (List.range (s.length + 1)).any fun d =>
      2 ≤ d && 2 * d ≤ s.length && isRepetitionOf s.length s (s.take d)

/-- The hiragana→katakana `str.maketrans` table of rule 10
(fixer.py line 204). -/
def hiraToKataPairs : List (Char × Char) :=
  "ぁあぃいぅうぇえぉおかがきぎくぐけげこごさざしじすずせぜそぞただちぢっつづてでとどなにぬねのはばぱひびぴふぶぷへべぺほぼぽまみむめもゃやゅゆょよらりるれろゎわゐゑをん".toList.zip
    "ァアィイゥウェエォオカガキギクグケゲコゴサザシジスズセゼソゾタダチヂッツヅテデトドナニヌネノハバパヒビピフブプヘベペホボポマミムメモャヤュユョヨラリルレロヮワヰヱヲン".toList

def hiraToKata (s : List Char) : List Char :=
  s.map fun c =>
    match lookupPair hiraToKataPairs c with
    | some k => k
    | none => c

/-- `typo_map` (fixer.py lines 206-212). -/
def typo_map : List (List Char × List Char) :=
  [("有り難う".toList, "ありがとう".toList), ("有難う".toList, "ありがとう".toList),
   ("有りがとう".toList, "ありがとう".toList),
   ("御座いまし".toList, "ございました".toList), ("御座います".toList, "ございます".toList),
   ("御座いません".toList, "ございません".toList),
   ("出来ます".toList, "できます".toList), ("下さいます".toList, "くださいます".toList),
   ("下さる".toList, "くださる".toList),
   ("未だ".toList, "まだ".toList), ("未だに".toList, "まだに".toList),
   ("確立".toList, "確率".toList), ("確率".toList, "確率".toList),
   ("以外".toList, "以外".toList), ("意外".toList, "意外".toList),
   ("一応".toList, "一応".toList), ("一様".toList, "一様".toList),
   ("早急".toList, "至急".toList), ("早急に".toList, "至急に".toList)]

/-- `re.sub(r"([をにがへとでからより])\1", r"\1", snip)` for
`NLP_PARTICLE_RUN`: collapse a doubled particle character. -/
def isNlpParticleChar (c : Char) : Bool :=
  c = 'を' || c = 'に' || c = 'が' || c = 'へ' || c = 'と' || c = 'で' ||
  c = 'か' || c = 'ら' || c = 'よ' || c = 'り'

def subParticlePair : Nat → List Char → List Char
  | 0, l => l
  | _, [] => []
  | _ + 1, [c] => [c]
  | fuel + 1, c :: d :: rest =>
    if isNlpParticleChar c && c = d then c :: subParticlePair fuel rest
    else c :: subParticlePair fuel (d :: rest)

/-- Positions of `の` in a list (for `NLP_NO_CHAIN`). -/
def noIndices (s : List Char) : List Nat :=
  ((List.range s.length).zip s).filterMap fun p =>
    if p.2 = 'の' then some p.1 else none

/-- The body of `_compute_suggestion` after the initial
`if issue.suggestion: return issue.suggestion` check (fixer.py lines
160-296), preserving the source's dispatch order. -/
def computeSuggestionRest (issue : Issue) (full_text : List Char)
    (aggressive use_lt use_nlp : Bool) : Option (List Char) :=
  let msg := issue.message
  let snip := pySlice full_text issue.start issue.stop
  let rid := issue.rule_id.getD ""
  -- 1. mojibake / invisible spaces
  if snip.any isMojibakeChar then some []
  -- 2. doubled word
  else if doubledWordFullmatch snip then
    some (snip.take (snip.length /
      (pyCountSub (snip.take (snip.length / 2)) snip + 1)))
  -- 3. one kana repeated three or more times
  else if 3 ≤ snip.length && snip.all (fun c => some c = snip.head?) &&
      (match snip.head? with | some c => isKanaChar c | none => false) then
    some (snip.take 1)
  -- 4. tripled sentence punctuation reduced to two
  else if 3 ≤ snip.length && snip.all (fun c => some c = snip.head?) &&
      (match snip.head? with
       | some c => c = '、' || c = '。' || c = '！' || c = '？'
       | none => false) then
    some (snip.take 1 ++ snip.take 1)
  -- 5. full-width / doubled spaces
  else if !snip.isEmpty && snip.all (· = '　') then some [' ']
  else if 2 ≤ snip.length && snip.all (· = ' ') then some [' ']
  -- 6. pure horizontal whitespace
  else if !snip.isEmpty && snip.all (fun c => c = ' ' || c = '\t' || c = '　') then
    some []
  -- 7. half-width katakana
  else if !snip.isEmpty && snip.all (fun c => 0xFF66 ≤ c.toNat && c.toNat ≤ 0xFF9F) then
    some (_normalize_alnum_kana snip)
  -- 8. prolonged-mark / middle-dot / slash / hyphen runs
  else if 2 ≤ snip.length && snip.all (· = 'ー') then some ("ー".toList)
  else if 2 ≤ snip.length && snip.all (· = '・') then some ("・".toList)
  else if 2 ≤ snip.length && snip.all (fun c => c = '／' || c = '/') then some ['/']
  else if 2 ≤ snip.length && snip.all (fun c => c = '－' || c = '-') then some ['-']
  -- 9. space next to punctuation (`\s+[、。]|[、。]\s+` as a fullmatch)
  else if (2 ≤ snip.length &&
      (match snip.getLast? with | some c => c = '、' || c = '。' | none => false) &&
      snip.dropLast.all pyIsSpace) ||
      (2 ≤ snip.length &&
      (match snip.head? with | some c => c = '、' || c = '。' | none => false) &&
      (snip.drop 1).all pyIsSpace) then
    some (pyStrip snip)
  -- 10. mixed kana normalised towards katakana (falls through otherwise)
  else if 2 ≤ snip.length && snip.all isKanaChar &&
      snip.countP (fun c => 0x3041 ≤ c.toNat && c.toNat ≤ 0x3096) <
        snip.countP (fun c => 0x30A1 ≤ c.toNat && c.toNat ≤ 0x30FA) then
    some (hiraToKata snip)
  -- 11. curated typo dictionary
  else if (typo_map.find? (fun p => p.1 = snip)).isSome then
    (typo_map.find? (fun p => p.1 = snip)).map (fun p => p.2)
  -- 12. comma/full-stop mixtures
  else if (match snip with
      | [a, b] => isCommaPunct a && isFullStopPunct b
      | _ => false) then
    some ("、。".toList)
  else if (match snip with
      | [a, b] => isFullStopPunct a && isCommaPunct b
      | _ => false) then
    some ("。".toList)
  -- 13. doubled full-width sentence punctuation
  else if (match snip with
      | [a, b] => (a = '、' || a = '。') && (b = '、' || b = '。')
      | _ => false) then
    some (snip.take 1)
  -- rule_id based dispatch (advanced rules)
  else if rid = "ADV_DOUBLE_PARTICLE" then some (_fix_double_particles snip)
  else if rid = "ADV_DOUBLE_ADVERB" then some (_fix_double_adverb snip)
  else if rid = "ADV_COLLOQUIAL" then
    (if aggressive then some (_fix_colloquial snip) else none)
  else if rid = "ADV_PUNCT_MIXED" then some (_fix_punct_mixed snip)
  else if rid = "ADV_SPACE_BEFORE_PUNCT" then some (_fix_space_before_punct snip)
  else if rid = "ADV_ELLIPSIS" then some (_fix_ellipsis_ascii snip)
  else if rid = "ADV_PROLONGED_SOUND" then some (_fix_long_dash snip)
  else if rid = "ADV_EMPHATIC_ADVERB_MANY" then
    (if aggressive then some [] else none)
  else if rid = "ADV_LONG_SENTENCE" && aggressive then
    (let part := pySlice full_text issue.start issue.stop
     if part.isEmpty then none
     else
       let mid := part.length / 2
       let left := lastIdxWhere (· = '、') (part.take mid) 0 none
       let idx :=
         match left with
         | some v => some v
         | none => pyFindAux ("、".toList) (part.drop mid) mid
       match idx with
       | some k => some (part.take k ++ "。".toList ++ part.drop (k + 1))
       | none => none)
  -- message-substring heuristics (typo_rules messages)
  else if containsSub ("全角英数字が含まれています".toList) msg.toList then
    some (_normalize_alnum_kana snip)
  else if containsSub ("半角カナが含まれています".toList) msg.toList then
    some (_normalize_alnum_kana snip)
  else if containsSub ("句読点が連続しています".toList) msg.toList then
    some (_fix_repeat_char snip)
  else if containsSub ("感嘆符が連続しています".toList) msg.toList ||
      containsSub ("疑問符が連続しています".toList) msg.toList then
    some (_fix_repeat_char snip)
  else if containsSub ("長音の連続".toList) msg.toList then
    some (_fix_long_dash snip)
  else if containsSub ("為に".toList) msg.toList ||
      containsSub ("為の".toList) msg.toList ||
      containsSub ("'為".toList) msg.toList then
    some (_fix_kango_to_hiragana snip)
  else if containsSub ("漢字 '貰'".toList) msg.toList then
    some (_fix_kango_to_hiragana snip)
  else if containsSub ("全角スペースが含まれています".toList) msg.toList then
    some [' ']
  else if containsSub ("連続スペースを1つに".toList) msg.toList then
    some (_fix_multi_spaces snip)
  else if containsSub ("日本語の間のスペースを削除".toList) msg.toList then
    some (_fix_cjk_inner_space snip)
  else if containsSub ("句点直後の読点".toList) msg.toList ||
      containsSub ("読点直後の句点".toList) msg.toList then
    some (_fix_punct_order snip)
  else if containsSub ("編集ミスの可能性".toList) msg.toList &&
      containsSub ("にりして".toList) snip then
    some ("にして".toList)
  else if containsSub ("文字化けの可能性".toList) msg.toList then
    some []
  -- LanguageTool adoption (only reachable with an empty suggestion,
  -- hence `sug` is falsy and this always yields none)
  else if ("LT_".toList).isPrefixOf rid.toList && use_lt then
    (match issue.suggestion with
     | some sug =>
       if !sug.isEmpty && _lt_suggestion_is_safe snip sug then some sug else none
     | none => none)
  -- NLP-derived light fixes
  else if rid = "NLP_NO_CHAIN" && use_nlp && aggressive then
    (let idxs := noIndices snip
     if 3 ≤ idxs.length then
       match (idxs.drop (idxs.length - 2)).head? with
       | some k => some (snip.take k ++ "、".toList ++ snip.drop k)
       | none => none
     else none)
  else if rid = "NLP_PARTICLE_RUN" && use_nlp && aggressive then
    some (subParticlePair snip.length snip)
  else none

/-- `_compute_suggestion` (fixer.py lines 157-296): a truthy existing
suggestion is returned as-is — before any `use_lt`/`use_nlp` gating or
safety check — otherwise the heuristic dispatch runs. -/
def _compute_suggestion (issue : Issue) (full_text : List Char)
    (aggressive use_lt use_nlp : Bool) : Option (List Char) :=
  match issue.suggestion with
  | some s => if !s.isEmpty then some s
      else computeSuggestionRest issue full_text aggressive use_lt use_nlp
  | none => computeSuggestionRest issue full_text aggressive use_lt use_nlp

/-! ## `apply_fixes` (fixer.py lines 298-325) -/

/-- The Python sort key `(start, end)` as a total preorder. -/
def issueLe (x y : Issue) : Prop :=
  x.start < y.start ∨ (x.start = y.start ∧ x.stop ≤ y.stop)

instance : DecidableRel issueLe := fun x y => by
  unfold issueLe
  infer_instance

/-- The splice loop of `apply_fixes` (lines 316-325): walk the sorted
issues with a write cursor, skipping any issue whose start precedes the
cursor; emit `text[cur:start]`, then `suggestion or text[start:end]`
(Python truthiness: an empty suggestion falls back to the original
span), and continue from the issue's end; finally the tail. -/
def spliceWalk (text : List Char) : List Issue → Nat → List Char
  | [], cur => text.drop cur
  | i :: rest, cur =>
    if i.start < cur then spliceWalk text rest cur
    else
      pySlice text cur i.start ++
      (match i.suggestion with
       | some s => if s.isEmpty then pySlice text i.start i.stop else s
       | none => pySlice text i.start i.stop) ++
      spliceWalk text rest i.stop

/-- `apply_fixes` (fixer.py lines 298-325): filter by the context gate,
resolve each surviving issue to a concrete suggestion (dropping it when
none), store the suggestion on the issue, sort by `(start, end)` and
splice.  The source's `LT_`/`NLP_` guard branches are literal `pass`
statements with no effect and therefore translate to nothing.  Python's
`list.sort` is stable; any stable sort by the same key produces the
same list, here `List.insertionSort`. -/
def apply_fixes (text : List Char) (issues : List Issue)
    (aggressive context use_lt use_nlp : Bool) : List Char :=
  let issues2 := issues.foldl (fun acc i =>
    if context && !(_context_allows i text) then acc
    else
      match _compute_suggestion i text aggressive use_lt use_nlp with
      | none => acc
      | some sug => acc ++ [{ i with suggestion := some sug }]) []
  spliceWalk text (issues2.insertionSort issueLe) 0

/-- **C2.** `apply_fixes` sorts surviving issues by `(start, end)` and
walks them with a write cursor, skipping every issue whose start
precedes the cursor: for two overlapping issues `[0,5)` and `[3,8)`
with (truthy) replacements, in either input order, only the issue with
the lowest start is applied; the later one is discarded, the text of
its span beyond the first edit (`text[5:8]`) is left untouched, and the
output is the concatenation `text[0:0] ++ r1 ++ text[5:]` — no source
character outside the edited span duplicated or dropped. -/
theorem apply_fixes_overlap_first_wins (text r1 r2 : List Char)
    (hr1 : r1 ≠ []) (hr2 : r2 ≠ []) (i1 i2 : Issue)
    (h1s : i1.start = 0) (h1e : i1.stop = 5) (h1g : i1.suggestion = some r1)
    (h2s : i2.start = 3) (h2e : i2.stop = 8) (h2g : i2.suggestion = some r2) :
    apply_fixes text [i1, i2] false false false false = r1 ++ text.drop 5 ∧
    apply_fixes text [i2, i1] false false false false = r1 ++ text.drop 5 := by
  have hr1' : r1.isEmpty = false := by simpa [List.isEmpty_iff] using hr1
  have hr2' : r2.isEmpty = false := by simpa [List.isEmpty_iff] using hr2
  constructor
  · simp only [apply_fixes, List.foldl, Bool.false_and, if_false,
      _compute_suggestion, h1g, h2g, hr1', hr2', Bool.not_false, if_true]
    simp only [List.nil_append, List.singleton_append]
    simp only [List.insertionSort, List.orderedInsert]
    rw [if_pos (show issueLe _ _ by left; simp [h1s, h2s])]
    simp only [spliceWalk, h1s, h2s, h1e, h2e]
    simp [hr1', pySlice]
  · simp only [apply_fixes, List.foldl, Bool.false_and, if_false,
      _compute_suggestion, h1g, h2g, hr1', hr2', Bool.not_false, if_true]
    simp only [List.nil_append, List.singleton_append]
    simp only [List.insertionSort, List.orderedInsert]
    rw [if_neg (show ¬ issueLe _ _ by simp [issueLe, h1s, h2s])]
    simp only [spliceWalk, h1s, h2s, h1e, h2e, List.orderedInsert]
    simp [hr1', pySlice]

def c2IssueA : Issue :=
  { file := none, start := 0, stop := 5, snippet := "abcde".toList, message := "",
    suggestion := some ("XYZ".toList), severity := "WARN", rule_id := none }

def c2IssueB : Issue :=
  { file := none, start := 3, stop := 8, snippet := "defgh".toList, message := "",
    suggestion := some ("QQ".toList), severity := "WARN", rule_id := none }

/-- Witness for C2 on `abcdefghij`: the overlapping pair rewrites to
`XYZfghij` in both input orders. -/
theorem apply_fixes_overlap_first_wins_witness :
    ("XYZ".toList ≠ ([] : List Char)) ∧
    apply_fixes ("abcdefghij".toList) [c2IssueA, c2IssueB] false false false false
      = "XYZ".toList ++ ("abcdefghij".toList).drop 5 ∧
    apply_fixes ("abcdefghij".toList) [c2IssueB, c2IssueA] false false false false
      = "XYZ".toList ++ ("abcdefghij".toList).drop 5 :=
  ⟨by decide,
   (apply_fixes_overlap_first_wins ("abcdefghij".toList) ("XYZ".toList)
      ("QQ".toList) (by decide) (by decide) c2IssueA c2IssueB
      rfl rfl rfl rfl rfl rfl).1,
   (apply_fixes_overlap_first_wins ("abcdefghij".toList) ("XYZ".toList)
      ("QQ".toList) (by decide) (by decide) c2IssueA c2IssueB
      rfl rfl rfl rfl rfl rfl).2⟩

/-! ## C3: external-provider gating is bypassed -/

/-- An LT-origin issue carrying an unsafe suggestion (it introduces
Latin letters, so `_lt_suggestion_is_safe` rejects it). -/
def ltExampleIssue : Issue :=
  { file := none, start := 0, stop := 2, snippet := "今日".toList,
    message := "LanguageTool指摘", suggestion := some ("OK!".toList),
    severity := "INFO", rule_id := some "LT_TEST" }

/-- **C3** (code bug, evaluated at the failing input): with
`use_lt = false` — and a replacement that fails the safety predicate —
`apply_fixes` still applies an `LT_`-origin issue's suggestion, because
`_compute_suggestion` returns any truthy pre-set suggestion before the
`use_lt` gate and the `_lt_suggestion_is_safe` check are ever reached
(the `pass` branches of fixer.py lines 304-308, whose comment says such
suggestions are to be invalidated, have no effect).  The claim that
such issues are resolved "only when the corresponding flag is enabled,
and even then only when the replacement is safe" fails on this code. -/
theorem lt_issue_applied_despite_gating :
    apply_fixes ("今日は晴れ".toList) [ltExampleIssue] false false false false
      = "OK!は晴れ".toList ∧
    _lt_suggestion_is_safe (pySlice ("今日は晴れ".toList) 0 2) ("OK!".toList)
      = false :=
  ⟨by decide, by decide⟩

/-! ## `cache.py` -/

/-- Decimal digit expansion, most significant digit first, of a natural
number: what Python `str`/f-string formatting prints for the non-negative
integers used here.  The first argument is recursion fuel; `n + 1` units
always suffice for `n`. -/
def natReprAux : Nat → Nat → List Char
  | 0, _ => []
  | fuel + 1, n =>
    if n < 10 then [Nat.digitChar n]
    else natReprAux fuel (n / 10) ++ [Nat.digitChar (n % 10)]

/-- `str(n)` for a natural number `n`. -/
def natRepr (n : Nat) : List Char :=
  natReprAux (n + 1) n

/-- Reads a digit string back into a number (accumulator form); used only to
prove `natRepr` injective. -/
def decodeDigits : List Char → Nat → Nat
  | [], acc => acc
  | c :: rest, acc => decodeDigits rest (acc * 10 + (c.toNat - 48))

/-- `file_fingerprint` (cache.py lines 21-23):
`f"{stat.st_mtime_ns}:{stat.st_size}"` from the file's stat result
`(st_mtime_ns, st_size)` (non-negative on any filesystem timestamp after
1970, hence modelled as naturals). -/
def file_fingerprint (st : Nat × Nat) : List Char :=
  natRepr st.1 ++ ':' :: natRepr st.2

theorem digitChar_isDigit : ∀ d < 10, (Nat.digitChar d).isDigit = true := by decide

theorem digitChar_toNat : ∀ d < 10, (Nat.digitChar d).toNat - 48 = d := by decide

theorem decodeDigits_append (l1 l2 : List Char) :
    ∀ acc, decodeDigits (l1 ++ l2) acc = decodeDigits l2 (decodeDigits l1 acc) := by
  induction l1 with
  | nil => intro acc; rfl
  | cons c rest ih =>
    intro acc
    rw [List.cons_append, decodeDigits, decodeDigits]
    exact ih _

theorem decode_natReprAux :
    ∀ fuel n acc, n < 10 ^ fuel →
      decodeDigits (natReprAux fuel n) acc =
        acc * 10 ^ (natReprAux fuel n).length + n := by
  intro fuel
  induction fuel with
  | zero =>
    intro n acc h
    simp only [pow_zero, Nat.lt_one_iff] at h
    subst h
    simp [natReprAux, decodeDigits]
  | succ fuel ih =>
    intro n acc h
    by_cases h10 : n < 10
    · simp only [natReprAux, if_pos h10, decodeDigits, List.length_cons,
        List.length_nil]
      rw [digitChar_toNat n h10]
      ring
    · simp only [natReprAux, if_neg h10]
      rw [decodeDigits_append]
      have hdiv : n / 10 < 10 ^ fuel := by
        rw [Nat.div_lt_iff_lt_mul (by norm_num)]
        calc n < 10 ^ (fuel + 1) := h
          _ = 10 ^ fuel * 10 := by ring
      rw [ih (n / 10) acc hdiv]
      simp only [decodeDigits, List.length_append, List.length_cons, List.length_nil]
      rw [digitChar_toNat (n % 10) (Nat.mod_lt n (by norm_num))]
      rw [pow_succ, ← mul_assoc]
      have key : ∀ t : Nat, (t + n / 10) * 10 + n % 10 = t * 10 + n := by
        intro t
        omega
      exact key _

theorem decode_natRepr (n : Nat) : decodeDigits (natRepr n) 0 = n := by
  have h : n < 10 ^ (n + 1) :=
    lt_of_lt_of_le (Nat.lt_pow_self (by norm_num) n)
      (Nat.pow_le_pow_right (by norm_num) (Nat.le_succ n))
  rw [natRepr, decode_natReprAux (n + 1) n 0 h]
  simp

theorem natRepr_inj (a b : Nat) (h : natRepr a = natRepr b) : a = b := by
  have ha := decode_natRepr a
  rw [h] at ha
  exact ha.symm.trans (decode_natRepr b)

theorem natReprAux_digits :
    ∀ fuel n c, c ∈ natReprAux fuel n → c.isDigit = true := by
  intro fuel
  induction fuel with
  | zero =>
    intro n c hc
    simp [natReprAux] at hc
  | succ fuel ih =>
    intro n c hc
    by_cases h10 : n < 10
    · rw [natReprAux, if_pos h10] at hc
      simp only [List.mem_singleton] at hc
      subst hc
      exact digitChar_isDigit n h10
    · rw [natReprAux, if_neg h10] at hc
      rw [List.mem_append] at hc
      rcases hc with hc | hc
      · exact ih _ _ hc
      · simp only [List.mem_singleton] at hc
        subst hc
        exact digitChar_isDigit _ (Nat.mod_lt n (by norm_num))

theorem natRepr_no_colon (n : Nat) : ':' ∉ natRepr n := by
  intro h
  exact absurd (natReprAux_digits (n + 1) n ':' h) (by decide)

theorem append_colon_inj :
    ∀ (a c b d : List Char), ':' ∉ a → ':' ∉ c →
      a ++ ':' :: b = c ++ ':' :: d → a = c ∧ b = d := by
  intro a
  induction a with
  | nil =>
    intro c b d _ hc h
    cases c with
    | nil => simpa using h
    | cons x xs =>
      simp only [List.nil_append, List.cons_append, List.cons.injEq] at h
      exact absurd (h.1 ▸ List.mem_cons_self x xs) hc
  | cons x xs ih =>
    intro c b d ha hc h
    cases c with
    | nil =>
      simp only [List.cons_append, List.nil_append, List.cons.injEq] at h
      exact absurd (h.1.symm ▸ List.mem_cons_self x xs) ha
    | cons y ys =>
      simp only [List.cons_append, List.cons.injEq] at h
      have := ih ys b d (fun hm => ha (List.mem_cons_of_mem x hm))
        (fun hm => hc (h.1 ▸ List.mem_cons_of_mem y hm)) h.2
      exact ⟨by rw [h.1, this.1], this.2⟩

/-- Fingerprints are injective: any change to the modification time or the
size changes the fingerprint string. -/
theorem file_fingerprint_inj (s t : Nat × Nat)
    (h : file_fingerprint s = file_fingerprint t) : s = t := by
  rw [file_fingerprint, file_fingerprint] at h
  have := append_colon_inj _ _ _ _ (natRepr_no_colon s.1) (natRepr_no_colon t.1) h
  have h1 := natRepr_inj s.1 t.1 this.1
  have h2 := natRepr_inj s.2 t.2 this.2
  exact Prod.ext h1 h2

/-! ## `check_paths` (checker.py lines 227-317) and `load_cache` (cache.py lines 8-15) -/

/-- A Python dict mapping file paths to fingerprint strings, modelled by its
lookup function: `m k` is `m.get(k)`.  Insertion order plays no role in any
property below, so the functional view is faithful. -/
abbrev Cache : Type := String → Option (List Char)

/-- The dict update `m[k] = v`. -/
def dictSet (m : Cache) (k : String) (v : List Char) : Cache :=
  fun q => if q = k then some v else m q

/-- The empty dict `{}`. -/
def emptyCache : Cache := fun _ => none

/-- The filesystem and scanner a `check_paths` run interacts with: `stat f`
is `Path(f).stat()` restricted to the two fields `file_fingerprint` reads,
`(st_mtime_ns, st_size)`, with `none` modelling a raised `OSError`; `scan f`
is `check_file(f, ...)` for the run's fixed flag set, with `.error`
modelling an exception raised while scanning that file. -/
structure ScanEnv where
  stat : String → Option (Nat × Nat)
  scan : String → Except Unit (List Issue)

/-- The cache-gating loop of `check_paths` (checker.py lines 249-254): every
file is fingerprinted in order; with `use_cache` a file whose cache entry
equals its current fingerprint is skipped (`continue`), every other file is
queued as `(key, fingerprint)`.  A failing `stat` raises out of
`check_paths` (the `file_fingerprint(Path(f))` call on line 250 is not
guarded), modelled as `.error`. -/
def toScan (env : ScanEnv) (use_cache : Bool) (cache : Cache) :
    List String → Except Unit (List (String × List Char))
  | [] => .ok []
  | f :: rest =>
    match env.stat f with
    | none => .error ()
    | some st =>
      match toScan env use_cache cache rest with
      | .error e => .error e
      | .ok ts =>
        if use_cache = true ∧ cache f = some (file_fingerprint st) then .ok ts
        else .ok ((f, file_fingerprint st) :: ts)

/-- The sequential branch of `check_paths` (checker.py lines 293-311): each
queued file is scanned in order, its issues extending `results`, and with
`use_cache` its cache entry is set to the queued fingerprint.  Nothing here
catches an exception from `check_file`, so one propagates out of
`check_paths`, modelled as `.error`. -/
def checkPathsSeqLoop (env : ScanEnv) (use_cache : Bool) :
    List (String × List Char) → List Issue → Cache →
      Except Unit (List Issue × Cache)
  | [], results, cache => .ok (results, cache)
  | (key, fp) :: rest, results, cache =>
    match env.scan key with
    | .error e => .error e
    | .ok res =>
      checkPathsSeqLoop env use_cache rest (results ++ res)
        (if use_cache then dictSet cache key fp else cache)

/-- The per-future recovery of the parallel branch (checker.py lines
286-289): `try: res = fut.result() except Exception: res = []`. -/
def recoverScan (env : ScanEnv) (key : String) : List Issue :=
  match env.scan key with
  | .error _ => []
  | .ok l => l

/-- The parallel branch of `check_paths` (checker.py lines 265-292): every
queued file is submitted, each future's result is collected through
`recoverScan`, and with `use_cache` the file's cache entry is set whether or
not its scan raised.  `as_completed` yields futures in a nondeterministic
completion order; the loop is modelled in submission order — the properties
proved below (which files are scanned, each key's final cache entry, each
file's contribution to the results) are the same under any interleaving,
since each iteration writes only its own key and the queue maps a key to one
fingerprint. -/
def checkPathsParLoop (env : ScanEnv) (use_cache : Bool) :
    List (String × List Char) → List Issue → Cache → List Issue × Cache
  | [], results, cache => (results, cache)
  | (key, fp) :: rest, results, cache =>
    checkPathsParLoop env use_cache rest (results ++ recoverScan env key)
      (if use_cache then dictSet cache key fp else cache)

/-- `check_paths` (checker.py lines 227-317) with the filesystem, the
scanner and the loaded cache explicit; `loaded` is
`load_cache(str(Path.cwd()))`, consulted only when `use_cache` (line 245).
Returns the merged issue list together with the cache that `save_cache`
then writes (line 315). -/
def check_paths (env : ScanEnv) (files : List String) (loaded : Cache)
    (jobs : Nat) (use_cache : Bool) : Except Unit (List Issue × Cache) :=
  let cache := if use_cache then loaded else emptyCache
  match toScan env use_cache cache files with
  | .error e => .error e
  | .ok ts =>
    if 1 < jobs then .ok (checkPathsParLoop env use_cache ts [] cache)
    else checkPathsSeqLoop env use_cache ts [] cache

/-- `load_cache` (cache.py lines 8-15) over an explicit environment:
`isFile` is `p.is_file()`, `readText` the outcome of
`p.read_text(encoding="utf-8")` with `.error` modelling a raised exception,
and `parse` the outcome of `json.loads` on the file's text, read as a
path → fingerprint object (`.error` models any exception the `try` body
raises, e.g. invalid JSON).  Every failure path returns the empty dict and
the function itself is total: it never propagates an error. -/
def load_cache (isFile : Bool) (readText : Except Unit String)
    (parse : String → Except Unit Cache) : Cache :=
  match isFile, readText with
  | false, _ => emptyCache
  | true, .error _ => emptyCache
  | true, .ok s =>
    match parse s with
    | .error _ => emptyCache
    | .ok m => m

theorem dictSet_self (m : Cache) (k : String) (v : List Char) :
    dictSet m k v k = some v := by
  simp [dictSet]

theorem dictSet_ne (m : Cache) (k : String) (v : List Char) (q : String)
    (h : q ≠ k) : dictSet m k v q = m q := by
  simp [dictSet, h]

/-- Membership characterization of the scan queue: a pair is queued exactly
when its path occurs in the file list, its fingerprint is the path's current
fingerprint, and the cache does not already hold that fingerprint. -/
theorem toScan_mem_iff (env : ScanEnv) (cache : Cache) :
    ∀ (files : List String) (ts : List (String × List Char)),
      toScan env true cache files = .ok ts →
      ∀ p : String × List Char,
        p ∈ ts ↔ p.1 ∈ files ∧ ∃ st, env.stat p.1 = some st ∧
          p.2 = file_fingerprint st ∧ cache p.1 ≠ some (file_fingerprint st) := by
  intro files
  induction files with
  | nil =>
    intro ts h p
    rw [toScan] at h
    injection h with h
    subst h
    simp
  | cons f rest ih =>
    intro ts h p
    rw [toScan] at h
    cases hst : env.stat f with
    | none => rw [hst] at h; exact absurd h (by simp)
    | some st =>
      rw [hst] at h
      cases hrec : toScan env true cache rest with
      | error e => rw [hrec] at h; exact absurd h (by simp)
      | ok ts' =>
        rw [hrec] at h
        simp only at h
        by_cases hskip : cache f = some (file_fingerprint st)
        · rw [if_pos ⟨trivial, hskip⟩] at h
          injection h with h
          subst h
          rw [ih ts' hrec p]
          constructor
          · rintro ⟨hmem, st', hst', hfp, hne⟩
            exact ⟨List.mem_cons_of_mem f hmem, st', hst', hfp, hne⟩
          · rintro ⟨hmem, st', hst', hfp, hne⟩
            rcases List.mem_cons.mp hmem with heq | hmem'
            · rw [heq] at hst'
              rw [hst] at hst'
              injection hst' with hst'
              subst hst'
              rw [heq] at hne
              exact absurd hskip hne
            · exact ⟨hmem', st', hst', hfp, hne⟩
        · rw [if_neg (fun hc => hskip hc.2)] at h
          injection h with h
          subst h
          rw [List.mem_cons, ih ts' hrec p]
          constructor
          · rintro (rfl | ⟨hmem, st', hst', hfp, hne⟩)
            · exact ⟨List.mem_cons_self f rest, st, hst, rfl, hskip⟩
            · exact ⟨List.mem_cons_of_mem f hmem, st', hst', hfp, hne⟩
          · rintro ⟨hmem, st', hst', hfp, hne⟩
            rcases List.mem_cons.mp hmem with heq | hmem'
            · left
              rw [heq] at hst'
              rw [hst] at hst'
              injection hst' with hst'
              subst hst'
              exact Prod.ext heq hfp
            · right
              exact ⟨hmem', st', hst', hfp, hne⟩

/-- A queue returned without error stat-ed every listed file. -/
theorem toScan_stat_ok (env : ScanEnv) (cache : Cache) :
    ∀ (files : List String) (ts : List (String × List Char)),
      toScan env true cache files = .ok ts →
      ∀ f ∈ files, ∃ st, env.stat f = some st := by
  intro files
  induction files with
  | nil =>
    intro ts _ f hf
    exact absurd hf (List.not_mem_nil f)
  | cons g rest ih =>
    intro ts h f hf
    rw [toScan] at h
    cases hst : env.stat g with
    | none => rw [hst] at h; exact absurd h (by simp)
    | some st =>
      rw [hst] at h
      cases hrec : toScan env true cache rest with
      | error e => rw [hrec] at h; exact absurd h (by simp)
      | ok ts' =>
        rcases List.mem_cons.mp hf with heq | hmem
        · exact ⟨st, heq ▸ hst⟩
        · exact ih ts' hrec f hmem

/-- When every listed file's current fingerprint is already in the cache,
the gating loop queues nothing. -/
theorem toScan_all_cached (env : ScanEnv) (cache : Cache) :
    ∀ files : List String,
      (∀ f ∈ files, ∃ st, env.stat f = some st ∧
        cache f = some (file_fingerprint st)) →
      toScan env true cache files = .ok [] := by
  intro files
  induction files with
  | nil => intro _; rfl
  | cons f rest ih =>
    intro h
    obtain ⟨st, hst, hc⟩ := h f (List.mem_cons_self f rest)
    have hrest := ih (fun g hg => h g (List.mem_cons_of_mem f hg))
    rw [toScan, hst, hrest]
    simp only
    rw [if_pos ⟨trivial, hc⟩]

/-- The sequential loop, run with caching and without error, updates the
cache exactly at the queued keys: every queued pair's key ends at its
fingerprint (the queue being read with one fingerprint per key), and every
other key keeps its prior entry. -/
theorem seqLoop_cache_mem (env : ScanEnv) :
    ∀ (ts : List (String × List Char)) (res0 : List Issue) (cache : Cache)
      (res : List Issue) (cacheF : Cache),
      checkPathsSeqLoop env true ts res0 cache = .ok (res, cacheF) →
      (∀ e ∈ ts, ∀ e' ∈ ts, e.1 = e'.1 → e.2 = e'.2) →
      (∀ e ∈ ts, cacheF e.1 = some e.2) ∧
      (∀ k, (∀ fp, (k, fp) ∉ ts) → cacheF k = cache k) := by
  intro ts
  induction ts with
  | nil =>
    intro res0 cache res cacheF h _
    rw [checkPathsSeqLoop] at h
    injection h with h
    injection h with h1 h2
    subst h2
    exact ⟨fun e he => absurd he (List.not_mem_nil e), fun k _ => rfl⟩
  | cons hd rest ih =>
    obtain ⟨key, fp⟩ := hd
    intro res0 cache res cacheF h hfun
    rw [checkPathsSeqLoop] at h
    cases hscan : env.scan key with
    | error e => rw [hscan] at h; exact absurd h (by simp)
    | ok l =>
      rw [hscan] at h
      simp only [if_true] at h
      have hfun' : ∀ e ∈ rest, ∀ e' ∈ rest, e.1 = e'.1 → e.2 = e'.2 :=
        fun e he e' he' =>
          hfun e (List.mem_cons_of_mem _ he) e' (List.mem_cons_of_mem _ he')
      obtain ⟨ih1, ih2⟩ :=
        ih (res0 ++ l) (dictSet cache key fp) res cacheF h hfun'
      constructor
      · intro e he
        rcases List.mem_cons.mp he with heq | he'
        · subst heq
          by_cases hk : ∃ v, (key, v) ∈ rest
          · obtain ⟨v, hmem⟩ := hk
            have hv : fp = v :=
              hfun (key, fp) (List.mem_cons_self _ _) (key, v)
                (List.mem_cons_of_mem _ hmem) rfl
            rw [hv]
            exact ih1 (key, v) hmem
          · push_neg at hk
            rw [ih2 key hk]
            exact dictSet_self cache key fp
        · exact ih1 e he'
      · intro k hk
        have hk' : ∀ v, (k, v) ∉ rest :=
          fun v hm => hk v (List.mem_cons_of_mem _ hm)
        rw [ih2 k hk']
        have hkne : k ≠ key := by
          intro heq
          subst heq
          exact hk fp (List.mem_cons_self _ _)
        exact dictSet_ne cache key fp k hkne

/-- What the parallel loop computes, run with caching: the results are the
prior results followed by each queued file's recovered scan in queue order,
every queued pair's key ends at its fingerprint, and every other key keeps
its prior cache entry. -/
theorem parLoop_spec (env : ScanEnv) :
    ∀ (ts : List (String × List Char)) (res0 : List Issue) (cache : Cache),
      (checkPathsParLoop env true ts res0 cache).1 =
        res0 ++ ts.flatMap (fun e => recoverScan env e.1) ∧
      (∀ e ∈ ts, (∀ e' ∈ ts, ∀ e'' ∈ ts, e'.1 = e''.1 → e'.2 = e''.2) →
        (checkPathsParLoop env true ts res0 cache).2 e.1 = some e.2) ∧
      (∀ k, (∀ fp, (k, fp) ∉ ts) →
        (checkPathsParLoop env true ts res0 cache).2 k = cache k) := by
  intro ts
  induction ts with
  | nil =>
    intro res0 cache
    refine ⟨by simp [checkPathsParLoop], ?_, fun k _ => rfl⟩
    intro e he
    exact absurd he (List.not_mem_nil e)
  | cons hd rest ih =>
    obtain ⟨key, fp⟩ := hd
    intro res0 cache
    obtain ⟨ihr, ihc, ihp⟩ :=
      ih (res0 ++ recoverScan env key) (dictSet cache key fp)
    refine ⟨?_, ?_, ?_⟩
    · rw [checkPathsParLoop]
      simp only [if_true]
      rw [ihr, List.flatMap_cons, List.append_assoc]
    · intro e he hfun
      rw [checkPathsParLoop]
      simp only [if_true]
      have hfun' : ∀ e' ∈ rest, ∀ e'' ∈ rest, e'.1 = e''.1 → e'.2 = e''.2 :=
        fun e' he' e'' he'' =>
          hfun e' (List.mem_cons_of_mem _ he') e'' (List.mem_cons_of_mem _ he'')
      rcases List.mem_cons.mp he with heq | he'
      · subst heq
        by_cases hk : ∃ v, (key, v) ∈ rest
        · obtain ⟨v, hmem⟩ := hk
          have hv : fp = v :=
            hfun (key, fp) (List.mem_cons_self _ _) (key, v)
              (List.mem_cons_of_mem _ hmem) rfl
          subst hv
          exact ihc (key, fp) hmem hfun'
        · push_neg at hk
          rw [ihp key hk]
          exact dictSet_self cache key fp
      · exact ihc e he' hfun'
    · intro k hk
      rw [checkPathsParLoop]
      simp only [if_true]
      have hk' : ∀ v, (k, v) ∉ rest :=
        fun v hm => hk v (List.mem_cons_of_mem _ hm)
      rw [ihp k hk']
      have hkne : k ≠ key := by
        intro heq
        subst heq
        exact hk fp (List.mem_cons_self _ _)
      exact dictSet_ne cache key fp k hkne

/-- C7: with caching enabled (and the default sequential execution), a
listed file is absent from the scan queue iff the loaded cache maps its
path to its current fingerprint; every scanned file's cache entry is
updated to the new fingerprint; running `check_paths` again over the cache
it produced queues nothing (the unchanged files are scanned once across the
two runs); and a stat whose fingerprint differs from the cached one — any
change of modification time or size, by `file_fingerprint_inj` — forces the
file back into the queue. -/
theorem check_paths_fingerprint_gating
    (env : ScanEnv) (files : List String) (cache0 : Cache)
    (ts : List (String × List Char)) (res : List Issue) (cacheF : Cache)
    (f : String) (st : Nat × Nat)
    (hts : toScan env true cache0 files = .ok ts)
    (hcp : check_paths env files cache0 1 true = .ok (res, cacheF))
    (hf : f ∈ files) (hst : env.stat f = some st) :
    ((∀ fp, (f, fp) ∉ ts) ↔ cache0 f = some (file_fingerprint st)) ∧
    (∀ e ∈ ts, cacheF e.1 = some e.2) ∧
    toScan env true cacheF files = .ok [] ∧
    (∀ stOld, cache0 f = some (file_fingerprint stOld) → stOld ≠ st →
      (f, file_fingerprint st) ∈ ts) := by
  have hrun : checkPathsSeqLoop env true ts [] cache0 = .ok (res, cacheF) := by
    rw [check_paths] at hcp
    simp only [if_true, hts] at hcp
    rw [if_neg (by norm_num)] at hcp
    exact hcp
  have hmem := toScan_mem_iff env cache0 files ts hts
  have hfun : ∀ e ∈ ts, ∀ e' ∈ ts, e.1 = e'.1 → e.2 = e'.2 := by
    intro e he e' he' h1
    obtain ⟨_, st1, hst1, hfp1, _⟩ := (hmem e).mp he
    obtain ⟨_, st2, hst2, hfp2, _⟩ := (hmem e').mp he'
    rw [h1, hst2] at hst1
    injection hst1 with h2
    rw [hfp1, hfp2, h2]
  obtain ⟨hcacheF, hpreserve⟩ :=
    seqLoop_cache_mem env ts [] cache0 res cacheF hrun hfun
  refine ⟨⟨?_, ?_⟩, hcacheF, ?_, ?_⟩
  · intro hno
    by_contra hne
    exact hno (file_fingerprint st)
      ((hmem (f, file_fingerprint st)).mpr ⟨hf, st, hst, rfl, hne⟩)
  · intro hc fp hmemts
    obtain ⟨_, st', hst', hfp', hne'⟩ := (hmem (f, fp)).mp hmemts
    rw [hst] at hst'
    injection hst' with h2
    subst h2
    exact hne' hc
  · apply toScan_all_cached
    intro g hg
    obtain ⟨stg, hstg⟩ := toScan_stat_ok env cache0 files ts hts g hg
    refine ⟨stg, hstg, ?_⟩
    by_cases hgs : ∃ fp, (g, fp) ∈ ts
    · obtain ⟨fp, hfp⟩ := hgs
      have h1 := hcacheF (g, fp) hfp
      obtain ⟨_, st', hst', hfp', _⟩ := (hmem (g, fp)).mp hfp
      rw [hstg] at hst'
      injection hst' with h2
      rw [h1, hfp', h2]
    · push_neg at hgs
      rw [hpreserve g hgs]
      by_contra hne
      exact hgs (file_fingerprint stg)
        ((hmem (g, file_fingerprint stg)).mpr ⟨hg, stg, hstg, rfl, hne⟩)
  · intro stOld hold hne
    refine (hmem (f, file_fingerprint st)).mpr ⟨hf, st, hst, rfl, ?_⟩
    intro hc
    rw [hold] at hc
    injection hc with hc
    exact hne (file_fingerprint_inj stOld st hc)

/-- A concrete issue for the orchestration witnesses. -/
def c7Issue : Issue :=
  { file := some "a.py", start := 0, stop := 3, snippet := "見れる".toList,
    message := "ら抜き言葉の可能性", suggestion := some ("見られる".toList),
    severity := "WARN", rule_id := some "ADV_RA_NUKI" }

/-- A two-file filesystem for the C7 witness: `a.py` is new, `b.py` is
cached at its current fingerprint. -/
def c7Env : ScanEnv where
  stat := fun f =>
    if f = "a.py" then some (100, 5)
    else if f = "b.py" then some (200, 7) else none
  scan := fun f => if f = "a.py" then .ok [c7Issue] else .ok []

/-- The loaded cache of the C7 witness: only `b.py` is cached. -/
def c7Cache0 : Cache :=
  fun k => if k = "b.py" then some (file_fingerprint (200, 7)) else none

theorem check_paths_fingerprint_gating_witness :
    ((∀ fp, ("a.py", fp) ∉ [("a.py", file_fingerprint (100, 5))]) ↔
      c7Cache0 "a.py" = some (file_fingerprint (100, 5))) ∧
    (∀ e ∈ [("a.py", file_fingerprint (100, 5))],
      dictSet c7Cache0 "a.py" (file_fingerprint (100, 5)) e.1 = some e.2) ∧
    toScan c7Env true (dictSet c7Cache0 "a.py" (file_fingerprint (100, 5)))
      ["a.py", "b.py"] = .ok [] ∧
    (∀ stOld, c7Cache0 "a.py" = some (file_fingerprint stOld) →
      stOld ≠ (100, 5) →
      ("a.py", file_fingerprint (100, 5)) ∈
        [("a.py", file_fingerprint (100, 5))]) :=
  check_paths_fingerprint_gating c7Env ["a.py", "b.py"] c7Cache0
    [("a.py", file_fingerprint (100, 5))] [c7Issue]
    (dictSet c7Cache0 "a.py" (file_fingerprint (100, 5))) "a.py" (100, 5)
    rfl rfl (by simp) rfl

/-- C8: `load_cache` is total and a cold start is the empty dict — when the
cache file is missing, unreadable, or fails to parse it returns `{}`, and
when the file reads and parses it returns the parsed path → fingerprint
map; no failure escapes to the caller. -/
theorem load_cache_never_fails
    (readText : Except Unit String) (s : String)
    (parseBad parseGood : String → Except Unit Cache) (m : Cache)
    (hbad : parseBad s = .error ()) (hgood : parseGood s = .ok m) :
    load_cache false readText parseGood = emptyCache ∧
    load_cache true (.error ()) parseGood = emptyCache ∧
    load_cache true (.ok s) parseBad = emptyCache ∧
    load_cache true (.ok s) parseGood = m := by
  refine ⟨rfl, rfl, ?_, ?_⟩
  · rw [load_cache, hbad]
  · rw [load_cache, hgood]

theorem load_cache_never_fails_witness :
    load_cache false (.ok "x") (fun _ => .ok (dictSet emptyCache "f" ['7'])) =
      emptyCache ∧
    load_cache true (.error ()) (fun _ => .ok (dictSet emptyCache "f" ['7'])) =
      emptyCache ∧
    load_cache true (.ok "x") (fun _ => .error ()) = emptyCache ∧
    load_cache true (.ok "x") (fun _ => .ok (dictSet emptyCache "f" ['7'])) =
      dictSet emptyCache "f" ['7'] :=
  load_cache_never_fails (.ok "x") "x" (fun _ => .error ())
    (fun _ => .ok (dictSet emptyCache "f" ['7'])) (dictSet emptyCache "f" ['7'])
    rfl rfl

/-- A one-file filesystem whose scan raises, for the C9 theorems. -/
def c9Env : ScanEnv where
  stat := fun _ => some (1, 1)
  scan := fun _ => .error ()

/-- Counterexample to C9 as claimed over every batch scan: with the default
sequential execution (`jobs = 1`, checker.py lines 293-311) nothing catches
the exception `check_file` raises for `a.py`, so the whole `check_paths`
call aborts instead of merging an empty issue list for that file. -/
theorem seq_scan_exception_aborts_batch :
    check_paths c9Env ["a.py"] emptyCache 1 true = .error () := rfl

/-- C9 (amended): only in the parallel branch of `check_paths`
(`jobs > 1`, checker.py lines 265-292) is an exception raised while
scanning one file caught at the per-file future boundary
(`try: res = fut.result() except Exception: res = []`): the batch still
returns `.ok`, each queued file contributes its recovered scan — the
failing file an empty issue list — and the failing file's cache entry is
still updated to its fingerprint, so it is not rescanned next run. -/
theorem parallel_scan_exception_isolated
    (env : ScanEnv) (files : List String) (cache0 : Cache)
    (ts : List (String × List Char)) (key : String) (fp : List Char)
    (hts : toScan env true cache0 files = .ok ts)
    (hmem : (key, fp) ∈ ts)
    (hfail : env.scan key = .error ()) :
    check_paths env files cache0 2 true =
      .ok (checkPathsParLoop env true ts [] cache0) ∧
    (checkPathsParLoop env true ts [] cache0).1 =
      ts.flatMap (fun e => recoverScan env e.1) ∧
    recoverScan env key = [] ∧
    (checkPathsParLoop env true ts [] cache0).2 key = some fp := by
  obtain ⟨hres, hcache, _⟩ := parLoop_spec env ts [] cache0
  have hmemiff := toScan_mem_iff env cache0 files ts hts
  have hfun : ∀ e' ∈ ts, ∀ e'' ∈ ts, e'.1 = e''.1 → e'.2 = e''.2 := by
    intro e he e' he' h1
    obtain ⟨_, st1, hst1, hfp1, _⟩ := (hmemiff e).mp he
    obtain ⟨_, st2, hst2, hfp2, _⟩ := (hmemiff e').mp he'
    rw [h1, hst2] at hst1
    injection hst1 with h2
    rw [hfp1, hfp2, h2]
  refine ⟨?_, ?_, ?_, ?_⟩
  · rw [check_paths]
    simp only [if_true, hts]
    rw [if_pos (by norm_num)]
  · rw [hres]
    rfl
  · rw [recoverScan, hfail]
  · exact hcache (key, fp) hmem hfun

theorem parallel_scan_exception_isolated_witness :
    check_paths c9Env ["a.py"] emptyCache 2 true =
      .ok (checkPathsParLoop c9Env true [("a.py", file_fingerprint (1, 1))]
        [] emptyCache) ∧
    (checkPathsParLoop c9Env true [("a.py", file_fingerprint (1, 1))]
        [] emptyCache).1 =
      [("a.py", file_fingerprint (1, 1))].flatMap
        (fun e => recoverScan c9Env e.1) ∧
    recoverScan c9Env "a.py" = [] ∧
    (checkPathsParLoop c9Env true [("a.py", file_fingerprint (1, 1))]
        [] emptyCache).2 "a.py" = some (file_fingerprint (1, 1)) :=
  parallel_scan_exception_isolated c9Env ["a.py"] emptyCache
    [("a.py", file_fingerprint (1, 1))] "a.py" (file_fingerprint (1, 1))
    rfl (by simp) rfl
